import Mathlib

/-
Shallow embedding of `src/index.ts` of `@allbin/user-cache`.

The library is a fetch-through cache in front of the Auth0 user directory,
backed by a Redis JSON store.  The embedding models:
  * the mutable context (`IUserCacheContext`) as an explicit state `St`
    threaded through every operation;
  * the external world (Auth0 token endpoint, Auth0 user queries, Redis)
    as oracle functions collected in `World`;
  * the observable I/O behaviour as an event trace (`Ev`): Redis
    connect/disconnect, cache reads/writes, token-exchange requests,
    directory batch requests, search requests and mock-generator calls.

Fallible external calls return `Except String`; a rejected promise in the
TypeScript source corresponds to an `Except.error` that propagates.
-/

set_option autoImplicit false

/- A user record (`Auth0User`).  The cache treats everything beyond
`user_id` as an opaque blob, modelled by a single `name` payload field. -/
structure User where
  user_id : String
  name : String
  deriving DecidableEq, Repr

/- The client-credentials exchange request issued by `getToken`
(`axios.post('https://<domain>/oauth/token', {...})`). -/
structure TokenRequest where
  url : String
  grant_type : String
  client_id : String
  client_secret : String
  audience : String
  deriving DecidableEq, Repr

/- Observable external operations, in program order. -/
inductive Ev where
  | redisConnect : Ev
  | redisDisconnect : Ev
  | cacheRead : String → Ev
  | cacheWrite : String → User → Nat → Ev
  | tokenReq : TokenRequest → Ev
  | dirReq : String → String → List String → Ev
  | searchReq : String → String → Ev
  | mockCall : String → Ev
  deriving DecidableEq, Repr

/- Resolved configuration (`UserCacheOptions`, after the factory applied
the ttl default). -/
structure Options where
  domain : String
  client_id : String
  client_secret : String
  redis_url : String
  ttl : Nat
  create_mock_user_fn : Option (String → Except String User)

/- The mutable context (`IUserCacheContext`) together with the state of the
external Redis store: `isConnected` is the context flag, `redisConn` is the
actual connection state of the Redis client, `cache` is the content of the
store (keyed by the full `user:<id>` key), `access_token` the memoized
bearer token. -/
structure St where
  isConnected : Bool
  redisConn : Bool
  cache : String → Option User
  access_token : Option String

/- Oracles for the external world: decoding a JWT expiry, the current time
(seconds, `Date.now() / 1000`), the token endpoint, the directory lookup
(response to one batched OR-query) and the search endpoint. -/
structure World where
  decodeExp : String → Int
  now : Int
  tokenExchange : TokenRequest → Except String String
  dir : List String → Except String (List User)
  search : String → Except String (List User)

/- Result of a fallible operation: final state, event trace, value. -/
structure Out (α : Type) where
  st : St
  evs : List Ev
  val : Except String α

/- `GetUsersOptions` from the source. -/
structure GetUsersOptions where
  force_fetch : Option Bool
  deriving DecidableEq, Repr

/- Redis key for a user id: `` `user:${id}` ``. -/
def userKey (id : String) : String := "user:" ++ id

/- `isTokenValid`: `decoded.exp - 60 > Date.now() / 1000`. -/
def isTokenValid (w : World) (token : String) : Bool :=
  decide (w.decodeExp token - 60 > w.now)

/- The request body/url of the client-credentials exchange in `getToken`. -/
def mkTokenRequest (o : Options) : TokenRequest :=
  { url := "https://" ++ o.domain ++ "/oauth/token"
    grant_type := "client_credentials"
    client_id := o.client_id
    client_secret := o.client_secret
    audience := "https://" ++ o.domain ++ "/api/v2/" }

/- The assignment `ctx.access_token = await axios.post(...)`: on success the
new token is stored and returned, on failure the error propagates and the
stored token is left unchanged. -/
def exchangeToken (w : World) (o : Options) (st : St) : Out String :=
  match w.tokenExchange (mkTokenRequest o) with
  | Except.ok t =>
    ⟨{ st with access_token := some t }, [Ev.tokenReq (mkTokenRequest o)], Except.ok t⟩
  | Except.error e => ⟨st, [Ev.tokenReq (mkTokenRequest o)], Except.error e⟩

/- `getToken`: `if (!ctx.access_token || !isTokenValid(ctx.access_token))`
exchange and store a new token; return the stored token. -/
def getToken (w : World) (o : Options) (st : St) : Out String :=
  match st.access_token with
  | some t =>
    if isTokenValid w t then ⟨st, [], Except.ok t⟩
    else exchangeToken w o st
  | none => exchangeToken w o st

/- `chunk`: `Array.from({length: Math.ceil(arr.length / size)}, (_, i) =>
arr.slice(i * size, i * size + size))`.  For `size > 0`,
`Math.ceil(n / size) = (n + size - 1) / size` in natural division, and
`slice(a, a + size)` is `drop a` then `take size`. -/
def chunk {α : Type} (arr : List α) (size : Nat) : List (List α) :=
  (List.range ((arr.length + size - 1) / size)).map
    (fun i => (arr.drop (i * size)).take size)

/- The OR-query string `` `user_id:("${batch.join('" OR "')}")` ``. -/
def batchQuery (batch : List String) : String :=
  "user_id:(\"" ++ String.intercalate "\" OR \"" batch ++ "\")"

/- The `for (const batch of batches)` loop body of `getAuth0Users`: per
batch, obtain a token (`await getToken(ctx)` in the request headers), issue
the directory request, and append the batch results; any failure aborts the
remaining batches. -/
def fetchBatches (w : World) (o : Options) : List (List String) → St → Out (List User)
  | [], st => ⟨st, [], Except.ok []⟩
  | batch :: rest, st =>
    match getToken w o st with
    | ⟨st1, evs1, Except.error e⟩ => ⟨st1, evs1, Except.error e⟩
    | ⟨st1, evs1, Except.ok _⟩ =>
      match w.dir batch with
      | Except.error e =>
        ⟨st1, evs1 ++ [Ev.dirReq o.domain (batchQuery batch) batch], Except.error e⟩
      | Except.ok batch_users =>
        match fetchBatches w o rest st1 with
        | ⟨st2, evs2, Except.error e⟩ =>
          ⟨st2, evs1 ++ [Ev.dirReq o.domain (batchQuery batch) batch] ++ evs2, Except.error e⟩
        | ⟨st2, evs2, Except.ok users_rest⟩ =>
          ⟨st2, evs1 ++ [Ev.dirReq o.domain (batchQuery batch) batch] ++ evs2,
            Except.ok (batch_users ++ users_rest)⟩

/- `getAuth0Users`: chunk the ids into batches of 10 and run the loop. -/
def getAuth0Users (w : World) (o : Options) (st : St) (ids : List String) : Out (List User) :=
  fetchBatches w o (chunk ids 10) st

/- `userExists`: `!!user?.user_id` — a non-null record with a non-empty
`user_id` string. -/
def userExists : Option User → Bool
  | some u => u.user_id != ""
  | none => false

/- `ensureConnected`: connect once, guarded by the `isConnected` flag. -/
def ensureConnected (st : St) : St × List Ev :=
  if st.isConnected then (st, [])
  else ({ st with isConnected := true, redisConn := true }, [Ev.redisConnect])

/- One `multi.json.set('user:<id>', '$', user).expire('user:<id>', ttl)`
entry: the stored document at that key is fully replaced. -/
def writeUser (c : String → Option User) (u : User) : String → Option User :=
  fun k => if k = userKey u.user_id then some u else c k

def writeUsers (c : String → Option User) (users : List User) : String → Option User :=
  users.foldl writeUser c

/- `setUsers`: ensure connection, then write every record (with the
configured ttl) in one multi transaction. -/
def setUsers (o : Options) (st : St) (users : List User) : St × List Ev :=
  let r := ensureConnected st
  ({ r.1 with cache := writeUsers r.1.cache users },
    r.2 ++ users.map (fun u => Ev.cacheWrite (userKey u.user_id) u o.ttl))

/- The cache-read step of `getUsers`: with `force_fetch` the read path is
skipped entirely, otherwise every requested id is read
(`Promise.all(ids.map(id => ctx.redis.json.get('user:'+id)))`) and the
results are narrowed by the `userExists` type guard. -/
def readCachedUsers (st : St) (ids : List String) (force : Bool) : List User × List Ev :=
  if force then ([], [])
  else
    ((ids.map (fun id => st.cache (userKey id))).filterMap
        (fun r => if userExists r then r else none),
      ids.map (fun id => Ev.cacheRead (userKey id)))

/- The `for (const id of still_missing_ids)` mock loop: sequential calls to
the caller-supplied generator; a rejection aborts the remaining calls. -/
def runMocks (f : String → Except String User) : List String → List Ev × Except String (List User)
  | [] => ([], Except.ok [])
  | id :: rest =>
    match f id with
    | Except.error e => ([Ev.mockCall id], Except.error e)
    | Except.ok u =>
      match runMocks f rest with
      | (evs, Except.error e) => (Ev.mockCall id :: evs, Except.error e)
      | (evs, Except.ok us) => (Ev.mockCall id :: evs, Except.ok (u :: us))

/- Truthiness of `opts?.force_fetch`. -/
def forceOf (gopts : Option GetUsersOptions) : Bool :=
  match gopts with
  | some g => g.force_fetch.getD false
  | none => false

/- `getUsers(ctx, ids, opts?)`: ensure connection; read cache hits (unless
forced); compute `missing_ids`; fetch them in batches if any; write fetched
users back; without a mock generator return hits ++ fetched; with one,
synthesize mocks for ids the directory did not return, write them back, and
return hits ++ fetched ++ mocks. -/
def getUsers (w : World) (o : Options) (st : St) (ids : List String)
    (gopts : Option GetUsersOptions) : Out (List User) :=
  let c0 := ensureConnected st
  let rc := readCachedUsers c0.1 ids (forceOf gopts)
  let cached_users := rc.1
  let missing_ids := ids.filter (fun id => !(cached_users.any (fun u => u.user_id == id)))
  match (if missing_ids.isEmpty then (⟨c0.1, [], Except.ok []⟩ : Out (List User))
         else getAuth0Users w o c0.1 missing_ids) with
  | ⟨st2, evs2, Except.error e⟩ => ⟨st2, c0.2 ++ rc.2 ++ evs2, Except.error e⟩
  | ⟨st2, evs2, Except.ok fetched_users⟩ =>
    let s3 := if fetched_users.isEmpty then (st2, ([] : List Ev)) else setUsers o st2 fetched_users
    match o.create_mock_user_fn with
    | none => ⟨s3.1, c0.2 ++ rc.2 ++ evs2 ++ s3.2, Except.ok (cached_users ++ fetched_users)⟩
    | some f =>
      let still_missing_ids := missing_ids.filter
        (fun id => !(fetched_users.any (fun u => u.user_id == id)))
      match runMocks f still_missing_ids with
      | (evs4, Except.error e) => ⟨s3.1, c0.2 ++ rc.2 ++ evs2 ++ s3.2 ++ evs4, Except.error e⟩
      | (evs4, Except.ok mock_users) =>
        let s5 := if mock_users.isEmpty then (s3.1, ([] : List Ev)) else setUsers o s3.1 mock_users
        ⟨s5.1, c0.2 ++ rc.2 ++ evs2 ++ s3.2 ++ evs4 ++ s5.2,
          Except.ok (cached_users ++ fetched_users ++ mock_users)⟩

/- `searchUsers`: one authenticated request with query `` `email:/${q}/` ``,
then `setUsers` on the full result set, returning it unmodified. -/
def searchUsers (w : World) (o : Options) (st : St) (q : String) : Out (List User) :=
  match getToken w o st with
  | ⟨st1, evs1, Except.error e⟩ => ⟨st1, evs1, Except.error e⟩
  | ⟨st1, evs1, Except.ok _⟩ =>
    match w.search q with
    | Except.error e =>
      ⟨st1, evs1 ++ [Ev.searchReq o.domain ("email:/" ++ q ++ "/")], Except.error e⟩
    | Except.ok users =>
      let s2 := setUsers o st1 users
      ⟨s2.1, evs1 ++ [Ev.searchReq o.domain ("email:/" ++ q ++ "/")] ++ s2.2, Except.ok users⟩

/- `disconnect`: `if (ctx.isConnected) await ctx.redis.disconnect()`.
Note that the source never resets `ctx.isConnected`. -/
def disconnect (st : St) : St × List Ev :=
  if st.isConnected then ({ st with redisConn := false }, [Ev.redisDisconnect])
  else (st, [])

/- The caller-facing configuration (`UserCacheOptionsWithOptionals`):
`ttl` may be absent. -/
structure UserCacheConfig where
  domain : String
  client_id : String
  client_secret : String
  redis_url : String
  ttl : Option Nat
  create_mock_user_fn : Option (String → Except String User)

/- `ttl: opts.ttl || 60 * 15` — JavaScript `||` takes the default when the
left side is absent or `0` (both are falsy). -/
def resolveTtl (t : Option Nat) : Nat :=
  match t with
  | some v => if v = 0 then 60 * 15 else v
  | none => 60 * 15

/- The `options` object built by the factory (default export). -/
def mkOptions (i : UserCacheConfig) : Options :=
  { domain := i.domain, client_id := i.client_id, client_secret := i.client_secret
    redis_url := i.redis_url, ttl := resolveTtl i.ttl
    create_mock_user_fn := i.create_mock_user_fn }

/- The context created by the factory: disconnected client, no token; the
Redis store contents pre-exist the context. -/
def initialSt (store : String → Option User) : St :=
  { isConnected := false, redisConn := false, cache := store, access_token := none }

/- The `getUsers` member of the object returned by the factory:
`getUsers: async (ids) => await getUsers(ctx, ids)`.  The wrapper has
arity 1; in JavaScript a call that passes an options argument simply
ignores it, so the inner `getUsers` is always invoked without options. -/
def factoryGetUsers (w : World) (i : UserCacheConfig) (st : St)
    (ids : List String) (_gopts : Option GetUsersOptions) : Out (List User) :=
  getUsers w (mkOptions i) st ids none

/- ### Helper definitions for stating trace properties -/

/- The batches of the directory requests occurring in a trace, in order. -/
def dirBatches (evs : List Ev) : List (List String) :=
  evs.filterMap (fun e => match e with | Ev.dirReq _ _ b => some b | _ => none)

/- An event is a token-exchange or directory request (the only events the
remote fetch loop can produce). -/
def tokenOrDir (e : Ev) : Prop :=
  (∃ r, e = Ev.tokenReq r) ∨ ∃ d q b, e = Ev.dirReq d q b

/- Number of records in `l` carrying the identifier `id`. -/
def cnt (id : String) (l : List User) : Nat :=
  (l.filter (fun u => u.user_id == id)).length

/- ### Basic lemmas -/

theorem userKey_inj {a b : String} (h : userKey a = userKey b) : a = b := by
  have h2 : (userKey a).data = (userKey b).data := by rw [h]
  simp [userKey, String.data_append] at h2
  exact String.ext h2

theorem ensureConnected_cache (st : St) : (ensureConnected st).1.cache = st.cache := by
  unfold ensureConnected; by_cases h : st.isConnected <;> simp [h]

theorem ensureConnected_token (st : St) :
    (ensureConnected st).1.access_token = st.access_token := by
  unfold ensureConnected; by_cases h : st.isConnected <;> simp [h]

theorem ensureConnected_isConnected (st : St) :
    (ensureConnected st).1.isConnected = true := by
  unfold ensureConnected; by_cases h : st.isConnected <;> simp [h]

theorem ensureConnected_evs (st : St) :
    ∀ e ∈ (ensureConnected st).2, e = Ev.redisConnect := by
  unfold ensureConnected; by_cases h : st.isConnected <;> simp [h]

theorem ensureConnected_of_connected {st : St} (h : st.isConnected = true) :
    ensureConnected st = (st, []) := by
  simp [ensureConnected, h]

theorem getToken_frame (w : World) (o : Options) (st : St) :
    (getToken w o st).st.cache = st.cache ∧
    (getToken w o st).st.isConnected = st.isConnected ∧
    (getToken w o st).st.redisConn = st.redisConn ∧
    ∀ e ∈ (getToken w o st).evs, ∃ r, e = Ev.tokenReq r := by
  unfold getToken exchangeToken
  cases st.access_token with
  | none => cases w.tokenExchange (mkTokenRequest o) <;> simp
  | some t =>
    cases hv : isTokenValid w t with
    | true => simp [hv]
    | false => cases w.tokenExchange (mkTokenRequest o) <;> simp [hv]

theorem getToken_ok (w : World) (o : Options) (st : St)
    (htok : ∀ r, ∃ t, w.tokenExchange r = Except.ok t) :
    ∃ t, (getToken w o st).val = Except.ok t := by
  obtain ⟨t, ht⟩ := htok (mkTokenRequest o)
  unfold getToken exchangeToken
  cases st.access_token with
  | none => exact ⟨t, by simp [ht]⟩
  | some t0 =>
    cases hv : isTokenValid w t0 with
    | true => exact ⟨t0, by simp [hv]⟩
    | false => exact ⟨t, by simp [hv, ht]⟩

theorem dirBatches_of_token {evs : List Ev}
    (h : ∀ e ∈ evs, ∃ r, e = Ev.tokenReq r) : dirBatches evs = [] := by
  simp only [dirBatches, List.filterMap_eq_nil_iff]
  intro e he
  obtain ⟨r, rfl⟩ := h e he
  rfl

theorem dirBatches_append (evs1 evs2 : List Ev) :
    dirBatches (evs1 ++ evs2) = dirBatches evs1 ++ dirBatches evs2 := by
  simp [dirBatches]

/- ### `chunk` lemmas -/

theorem chunk_nil {α : Type} (size : Nat) : chunk ([] : List α) size = [] := by
  unfold chunk
  have h : (List.length ([] : List α) + size - 1) / size = 0 := by
    cases size with
    | zero => simp
    | succ n =>
      apply Nat.div_eq_of_lt
      simp only [List.length_nil]
      omega
  rw [h]
  simp

theorem chunk_cons {α : Type} (l : List α) (k : Nat) (hk : 0 < k) (hl : l ≠ []) :
    chunk l k = l.take k :: chunk (l.drop k) k := by
  have hlen : 0 < l.length := List.length_pos.mpr hl
  have hceil : (l.length + k - 1) / k = ((l.length - k + k - 1) / k) + 1 := by
    rcases le_or_lt k l.length with h | h
    · have h1 : l.length + k - 1 = (l.length - k + k - 1) + k := by omega
      rw [h1, Nat.add_div_right _ hk]
    · have h1 : l.length - k = 0 := by omega
      rw [h1]
      have h2 : (l.length + k - 1) / k = 1 := by
        apply Nat.div_eq_of_lt_le <;> omega
      have h3 : (k - 1) / k = 0 := Nat.div_eq_of_lt (by omega)
      simp [h2, h3]
  unfold chunk
  rw [List.length_drop, hceil, List.range_succ_eq_map]
  simp only [List.map_cons, List.map_map]
  congr 1
  · simp
  · apply List.map_congr_left
    intro i _
    simp only [Function.comp_apply, Nat.succ_eq_add_one]
    rw [List.drop_drop]
    have harith : (i + 1) * k = k + i * k := by ring
    rw [harith]

theorem chunk_join {α : Type} (k : Nat) (hk : 0 < k) :
    ∀ (n : Nat) (l : List α), l.length ≤ n → (chunk l k).flatten = l := by
  intro n
  induction n with
  | zero =>
    intro l hl
    have : l = [] := List.eq_nil_of_length_eq_zero (Nat.le_zero.mp hl)
    subst this
    simp [chunk_nil]
  | succ n ih =>
    intro l hl
    by_cases hne : l = []
    · subst hne; simp [chunk_nil]
    · rw [chunk_cons l k hk hne]
      have hdrop : (l.drop k).length ≤ n := by
        rw [List.length_drop]
        have : 0 < l.length := List.length_pos.mpr hne
        omega
      simp [ih (l.drop k) hdrop]

theorem chunk_flatten {α : Type} (l : List α) : (chunk l 10).flatten = l :=
  chunk_join 10 (by omega) l.length l (Nat.le_refl _)

theorem chunk_mem_size {α : Type} (l : List α) (k : Nat) (hk : 0 < k) :
    ∀ b ∈ chunk l k, b ≠ [] ∧ b.length ≤ k := by
  intro b hb
  simp only [chunk, List.mem_map, List.mem_range] at hb
  obtain ⟨i, hi, rfl⟩ := hb
  have hik : i + 1 ≤ (l.length + k - 1) / k := hi
  have hmul : (i + 1) * k ≤ l.length + k - 1 := by
    calc (i + 1) * k ≤ ((l.length + k - 1) / k) * k := Nat.mul_le_mul_right k hik
    _ ≤ l.length + k - 1 := Nat.div_mul_le_self _ _
  have hlt : i * k < l.length := by
    have : i * k + k ≤ l.length + k - 1 := by
      have : (i + 1) * k = i * k + k := by ring
      omega
    omega
  constructor
  · intro hb
    have := congrArg List.length hb
    simp [List.length_take, List.length_drop] at this
    omega
  · simp [List.length_take]

theorem chunk_full_size {α : Type} (l : List α) (k : Nat) (hk : 0 < k)
    (i : Nat) (hi : i + 1 < (chunk l k).length) :
    ∃ h : i < (chunk l k).length, ((chunk l k).get ⟨i, h⟩).length = k := by
  have hlen : (chunk l k).length = (l.length + k - 1) / k := by
    simp [chunk]
  refine ⟨by omega, ?_⟩
  have hget : (chunk l k).get ⟨i, by omega⟩ = (l.drop (i * k)).take k := by
    simp [chunk]
  rw [hget]
  rw [hlen] at hi
  have h2 : i + 2 ≤ (l.length + k - 1) / k := hi
  have hmul : (i + 2) * k ≤ l.length + k - 1 := by
    calc (i + 2) * k ≤ ((l.length + k - 1) / k) * k := Nat.mul_le_mul_right k h2
    _ ≤ l.length + k - 1 := Nat.div_mul_le_self _ _
  have : i * k + k ≤ l.length := by
    have hexp : (i + 2) * k = i * k + k + k := by ring
    omega
  simp [List.length_take, List.length_drop]
  omega

/- ### Cache-write lemmas -/

theorem bool_eq_of_iff {a b : Bool} (h : a = true ↔ b = true) : a = b := by
  cases a <;> cases b <;> simp_all

theorem writeUsers_frame (users : List User) (c : String → Option User) (k : String)
    (h : ∀ u ∈ users, k ≠ userKey u.user_id) : writeUsers c users k = c k := by
  induction users generalizing c with
  | nil => rfl
  | cons u rest ih =>
    simp only [writeUsers, List.foldl_cons]
    rw [show List.foldl writeUser (writeUser c u) rest = writeUsers (writeUser c u) rest from rfl]
    rw [ih (writeUser c u) (fun v hv => h v (List.mem_cons_of_mem _ hv))]
    simp [writeUser, h u (List.mem_cons_self _ _)]

theorem writeUsers_mem (users : List User) (c : String → Option User) (u : User)
    (hu : u ∈ users) (huniq : ∀ v ∈ users, v.user_id = u.user_id → v = u) :
    writeUsers c users (userKey u.user_id) = some u := by
  induction users generalizing c with
  | nil => cases hu
  | cons a rest ih =>
    simp only [writeUsers, List.foldl_cons]
    rw [show List.foldl writeUser (writeUser c a) rest = writeUsers (writeUser c a) rest from rfl]
    by_cases hmem : u ∈ rest
    · exact ih (writeUser c a) hmem (fun v hv hveq => huniq v (List.mem_cons_of_mem _ hv) hveq)
    · have hua : a = u := by
        cases hu with
        | head => rfl
        | tail _ h => exact absurd h hmem
      subst hua
      rw [writeUsers_frame]
      · simp [writeUser]
      · intro v hv heq
        have hveq : v.user_id = a.user_id := (userKey_inj heq).symm
        have hva := huniq v (List.mem_cons_of_mem _ hv) hveq
        exact absurd (hva ▸ hv) hmem

/- ### Cache-read lemmas -/

theorem cached_map_uid (st : St) (ids : List String)
    (hcoh : ∀ id u, st.cache (userKey id) = some u → u.user_id = id) :
    ((ids.map (fun id => st.cache (userKey id))).filterMap
        (fun r => if userExists r then r else none)).map User.user_id
      = ids.filter (fun id => userExists (st.cache (userKey id))) := by
  induction ids with
  | nil => simp
  | cons id rest ih =>
    simp only [List.map_cons, List.filterMap_cons, List.filter_cons]
    cases hc : st.cache (userKey id) with
    | none => simpa [userExists] using ih
    | some u =>
      have huid := hcoh id u hc
      by_cases hne : u.user_id = ""
      · have : userExists (some u) = false := by simp [userExists, hne]
        simpa [this] using ih
      · have : userExists (some u) = true := by simp [userExists, hne]
        simpa [this, huid] using ih

theorem readCached_map_uid (st : St) (ids : List String)
    (hcoh : ∀ id u, st.cache (userKey id) = some u → u.user_id = id) :
    (readCachedUsers st ids false).1.map User.user_id
      = ids.filter (fun id => userExists (st.cache (userKey id))) := by
  simpa [readCachedUsers] using cached_map_uid st ids hcoh

theorem any_uid_iff (l : List User) (id : String) :
    l.any (fun u => u.user_id == id) = true ↔ id ∈ l.map User.user_id := by
  simp only [List.any_eq_true, List.mem_map, beq_iff_eq]

/- ### Mock-loop lemmas -/

theorem runMocks_evs (f : String → Except String User) :
    ∀ l, ∀ e ∈ (runMocks f l).1, ∃ id, e = Ev.mockCall id := by
  intro l
  induction l with
  | nil => simp [runMocks]
  | cons id rest ih =>
    simp only [runMocks]
    cases f id with
    | error e => simp
    | ok u =>
      cases hr : runMocks f rest with
      | mk evs r =>
        rw [hr] at ih
        cases r with
        | error e =>
          intro ev hev
          rcases List.mem_cons.mp hev with h | h
          · exact ⟨id, h⟩
          · exact ih ev h
        | ok us =>
          intro ev hev
          rcases List.mem_cons.mp hev with h | h
          · exact ⟨id, h⟩
          · exact ih ev h

theorem runMocks_ok (f : String → Except String User)
    (hf : ∀ id, ∃ u, f id = Except.ok u ∧ u.user_id = id) :
    ∀ l, ∃ ms, runMocks f l = (l.map Ev.mockCall, Except.ok ms) ∧
      ms.map User.user_id = l := by
  intro l
  induction l with
  | nil => exact ⟨[], rfl, rfl⟩
  | cons id rest ih =>
    obtain ⟨u, hu, huid⟩ := hf id
    obtain ⟨ms, hms, hmsid⟩ := ih
    refine ⟨u :: ms, ?_, ?_⟩
    · simp [runMocks, hu, hms]
    · simp [hmsid, huid]

/- ### `setUsers` lemma -/

theorem setUsers_spec (o : Options) (st : St) (users : List User)
    (h : st.isConnected = true) :
    setUsers o st users
      = ({ st with cache := writeUsers st.cache users },
         users.map (fun u => Ev.cacheWrite (userKey u.user_id) u o.ttl)) := by
  simp [setUsers, ensureConnected_of_connected h]

/- ### Remote-fetch loop lemmas -/

theorem fetchBatches_frame (w : World) (o : Options) :
    ∀ (bs : List (List String)) (st : St),
    (fetchBatches w o bs st).st.cache = st.cache ∧
    (fetchBatches w o bs st).st.isConnected = st.isConnected ∧
    (fetchBatches w o bs st).st.redisConn = st.redisConn ∧
    ∀ e ∈ (fetchBatches w o bs st).evs, tokenOrDir e := by
  intro bs
  induction bs with
  | nil => intro st; simp [fetchBatches, tokenOrDir]
  | cons b rest ih =>
    intro st
    obtain ⟨hc, hic, hrc, hevs⟩ := getToken_frame w o st
    cases hg : getToken w o st with
    | mk st1 evs1 v1 =>
      rw [hg] at hc hic hrc hevs
      cases v1 with
      | error e =>
        simp only [fetchBatches, hg]
        exact ⟨hc, hic, hrc, fun e he => Or.inl (hevs e he)⟩
      | ok tok =>
        obtain ⟨hc2, hic2, hrc2, hevs2⟩ := ih st1
        cases hw : w.dir b with
        | error e =>
          simp only [fetchBatches, hg, hw]
          refine ⟨hc, hic, hrc, ?_⟩
          intro e he
          rcases List.mem_append.mp he with h | h
          · exact Or.inl (hevs e h)
          · simp only [List.mem_singleton] at h
            subst h
            exact Or.inr ⟨_, _, _, rfl⟩
        | ok us =>
          cases hr : fetchBatches w o rest st1 with
          | mk st2 evs2 v2 =>
            rw [hr] at hc2 hic2 hrc2 hevs2
            have hstep : ∀ e ∈ evs1 ++ [Ev.dirReq o.domain (batchQuery b) b] ++ evs2,
                tokenOrDir e := by
              intro e he
              rcases List.mem_append.mp he with h | h
              · rcases List.mem_append.mp h with h1 | h1
                · exact Or.inl (hevs e h1)
                · simp only [List.mem_singleton] at h1
                  subst h1
                  exact Or.inr ⟨_, _, _, rfl⟩
              · exact hevs2 e h
            cases v2 with
            | error e =>
              simp only [fetchBatches, hg, hw, hr]
              exact ⟨hc2.trans hc, hic2.trans hic, hrc2.trans hrc, hstep⟩
            | ok us2 =>
              simp only [fetchBatches, hg, hw, hr]
              exact ⟨hc2.trans hc, hic2.trans hic, hrc2.trans hrc, hstep⟩

theorem fetchBatches_ok (w : World) (o : Options) (resp : List String → List User)
    (htok : ∀ r, ∃ t, w.tokenExchange r = Except.ok t)
    (hdir : ∀ b, w.dir b = Except.ok (resp b)) :
    ∀ (bs : List (List String)) (st : St),
    (fetchBatches w o bs st).val = Except.ok ((bs.map resp).flatten) ∧
    dirBatches (fetchBatches w o bs st).evs = bs := by
  intro bs
  induction bs with
  | nil => intro st; simp [fetchBatches, dirBatches]
  | cons b rest ih =>
    intro st
    obtain ⟨t, ht⟩ := getToken_ok w o st htok
    obtain ⟨_, _, _, hevs⟩ := getToken_frame w o st
    cases hg : getToken w o st with
    | mk st1 evs1 v1 =>
      rw [hg] at ht hevs
      simp only at ht
      subst ht
      obtain ⟨hval, hbat⟩ := ih st1
      cases hr : fetchBatches w o rest st1 with
      | mk st2 evs2 v2 =>
        rw [hr] at hval hbat
        simp only at hval hbat
        subst hval
        simp only [fetchBatches, hg, hdir b, hr]
        constructor
        · simp
        · rw [dirBatches_append, dirBatches_append, dirBatches_of_token hevs, hbat]
          simp [dirBatches]

/- ### More trace and list helpers -/

theorem flatten_filterMap (D : String → Option User) :
    ∀ (L : List (List String)),
    (L.map (fun b => b.filterMap D)).flatten = L.flatten.filterMap D := by
  intro L
  induction L with
  | nil => simp
  | cons b L ih => simp only [List.map_cons, List.flatten_cons, List.filterMap_append, ih]

theorem filterMap_map_uid (D : String → Option User)
    (hD : ∀ id u, D id = some u → u.user_id = id) :
    ∀ (l : List String),
    (l.filterMap D).map User.user_id = l.filter (fun id => (D id).isSome) := by
  intro l
  induction l with
  | nil => simp
  | cons id rest ih =>
    cases hDi : D id with
    | none => simp [List.filterMap_cons, hDi, ih]
    | some u => simp [List.filterMap_cons, hDi, ih, hD id u hDi]

theorem dirBatches_connect (evs : List Ev)
    (h : ∀ e ∈ evs, e = Ev.redisConnect) : dirBatches evs = [] := by
  simp only [dirBatches, List.filterMap_eq_nil_iff]
  intro e he
  rw [h e he]

theorem dirBatches_reads (l : List String) :
    dirBatches (l.map (fun id => Ev.cacheRead (userKey id))) = [] := by
  simp only [dirBatches, List.filterMap_eq_nil_iff]
  intro e he
  simp only [List.mem_map] at he
  obtain ⟨id, _, rfl⟩ := he
  rfl

theorem dirBatches_writes (users : List User) (ttl : Nat) :
    dirBatches (users.map (fun u => Ev.cacheWrite (userKey u.user_id) u ttl)) = [] := by
  simp only [dirBatches, List.filterMap_eq_nil_iff]
  intro e he
  simp only [List.mem_map] at he
  obtain ⟨u, _, rfl⟩ := he
  rfl

theorem dirBatches_mocks (evs : List Ev)
    (h : ∀ e ∈ evs, ∃ id, e = Ev.mockCall id) : dirBatches evs = [] := by
  simp only [dirBatches, List.filterMap_eq_nil_iff]
  intro e he
  obtain ⟨id, rfl⟩ := h e he
  rfl

theorem dirBatches_nil_iff (evs : List Ev) :
    dirBatches evs = [] ↔ ∀ d q b, Ev.dirReq d q b ∉ evs := by
  simp only [dirBatches, List.filterMap_eq_nil_iff]
  constructor
  · intro h d q b hmem
    have := h _ hmem
    simp at this
  · intro h e he
    cases e with
    | dirReq d q b => exact absurd he (h d q b)
    | _ => rfl


/- ### Specification-level abbreviations (observables of a `getUsers` run) -/

/- The cache-hit test the read step applies to an id. -/
def cacheHit (st : St) (id : String) : Bool := userExists (st.cache (userKey id))

/- The cache hits, as the read step computes them. -/
def cachedOf (st : St) (ids : List String) : List User :=
  (ids.map (fun id => st.cache (userKey id))).filterMap
    (fun r => if userExists r then r else none)

/- The ids the cache could not serve, in input order. -/
def missingIds (st : St) (ids : List String) : List String :=
  ids.filter (fun id => !cacheHit st id)

/- The records a directory modelled by `D` returns for the missing ids. -/
def fetchedOf (D : String → Option User) (st : St) (ids : List String) : List User :=
  (missingIds st ids).filterMap D

theorem Out.eta_val {α : Type} (x : Out α) (v : Except String α) (h : x.val = v) :
    x = ⟨x.st, x.evs, v⟩ := by
  cases x
  cases h
  rfl

/- Success-path characterization of `getUsers ctx ids` (no options): assuming
a coherent cache (`hcoh`), a directory modelled by `D` answering each batch
with the records of the queried ids that exist (`hdir`, coherent by `hD`), a
working token endpoint and a mock generator producing a record carrying the
requested id, the call returns cache hits ++ fetched users ++ mock users,
the directory requests are exactly the batches of the missing ids, and the
final cache is the initial one overwritten by the fetched users and then by
the mock users. -/
theorem getUsers_ok (w : World) (o : Options) (st : St) (ids : List String)
    (D : String → Option User)
    (hcoh : ∀ id u, st.cache (userKey id) = some u → u.user_id = id)
    (hD : ∀ id u, D id = some u → u.user_id = id)
    (htok : ∀ r, ∃ t, w.tokenExchange r = Except.ok t)
    (hdir : ∀ b, w.dir b = Except.ok (b.filterMap D))
    (hmock : ∀ f, o.create_mock_user_fn = some f →
      ∀ id, ∃ u, f id = Except.ok u ∧ u.user_id = id) :
    ∃ st' evs mu,
      getUsers w o st ids none
        = ⟨st', evs, Except.ok (cachedOf st ids ++ fetchedOf D st ids ++ mu)⟩ ∧
      (o.create_mock_user_fn = none → mu = []) ∧
      (∀ f, o.create_mock_user_fn = some f → mu.map User.user_id
        = (missingIds st ids).filter (fun id => (D id).isNone)) ∧
      dirBatches evs = chunk (missingIds st ids) 10 ∧
      st'.cache = writeUsers (writeUsers st.cache (fetchedOf D st ids)) mu := by
  cases hE : ensureConnected st with
  | mk st1 evs0 =>
    have h1cache : st1.cache = st.cache := by
      have h := ensureConnected_cache st
      rw [hE] at h
      exact h
    have h1conn : st1.isConnected = true := by
      have h := ensureConnected_isConnected st
      rw [hE] at h
      exact h
    have h0evs : ∀ e ∈ evs0, e = Ev.redisConnect := by
      have h := ensureConnected_evs st
      rw [hE] at h
      exact h
    have hRC : readCachedUsers st1 ids false
        = (cachedOf st ids, ids.map (fun id => Ev.cacheRead (userKey id))) := by
      simp [readCachedUsers, cachedOf, h1cache]
    have hcu : (cachedOf st ids).map User.user_id
        = ids.filter (fun id => cacheHit st id) :=
      cached_map_uid st ids hcoh
    have hmiss : ids.filter (fun id => !((cachedOf st ids).any (fun u => u.user_id == id)))
        = missingIds st ids := by
      apply List.filter_congr
      intro id hid
      have hb : ((cachedOf st ids).any (fun u => u.user_id == id)) = cacheHit st id := by
        apply bool_eq_of_iff
        rw [any_uid_iff, hcu]
        simp [List.mem_filter, hid]
      rw [hb]
    obtain ⟨st2, evs2, hFetch, h2cache, h2conn, h2bat⟩ :
        ∃ st2 evs2,
          (if (missingIds st ids).isEmpty
              then (⟨st1, [], Except.ok []⟩ : Out (List User))
              else getAuth0Users w o st1 (missingIds st ids))
            = ⟨st2, evs2, Except.ok (fetchedOf D st ids)⟩ ∧
          st2.cache = st.cache ∧ st2.isConnected = true ∧
          dirBatches evs2 = chunk (missingIds st ids) 10 := by
      by_cases hm : missingIds st ids = []
      · refine ⟨st1, [], ?_, h1cache, h1conn, ?_⟩
        · rw [hm]
          simp [fetchedOf, hm]
        · rw [hm]
          simp [dirBatches, chunk_nil]
      · have hne : (missingIds st ids).isEmpty = false := by
          cases hmm : missingIds st ids with
          | nil => exact absurd hmm hm
          | cons a l => rfl
        rw [hne]
        obtain ⟨hval, hbat⟩ := fetchBatches_ok w o (fun b => b.filterMap D) htok hdir
          (chunk (missingIds st ids) 10) st1
        obtain ⟨hfc, hfic, _, _⟩ := fetchBatches_frame w o (chunk (missingIds st ids) 10) st1
        have hval2 : (fetchBatches w o (chunk (missingIds st ids) 10) st1).val
            = Except.ok (fetchedOf D st ids) := by
          rw [hval, flatten_filterMap, chunk_flatten]
          rfl
        refine ⟨_, _, ?_, hfc.trans h1cache, hfic.trans h1conn, hbat⟩
        simp only [Bool.false_eq_true, if_false]
        exact Out.eta_val _ _ hval2
    have h3 : (if (fetchedOf D st ids).isEmpty
          then (st2, ([] : List Ev))
          else setUsers o st2 (fetchedOf D st ids))
        = ({ st2 with cache := writeUsers st2.cache (fetchedOf D st ids) },
           (fetchedOf D st ids).map (fun u => Ev.cacheWrite (userKey u.user_id) u o.ttl)) := by
      by_cases hfe : fetchedOf D st ids = []
      · rw [hfe]
        simp [writeUsers]
      · have hne : (fetchedOf D st ids).isEmpty = false := by
          cases hmm : fetchedOf D st ids with
          | nil => exact absurd hmm hfe
          | cons a l => rfl
        rw [hne]
        simp only [Bool.false_eq_true, if_false]
        exact setUsers_spec o st2 _ h2conn
    cases hcfg : o.create_mock_user_fn with
    | none =>
      refine ⟨{ st2 with cache := writeUsers st2.cache (fetchedOf D st ids) },
        evs0 ++ ids.map (fun id => Ev.cacheRead (userKey id)) ++ evs2
          ++ (fetchedOf D st ids).map (fun u => Ev.cacheWrite (userKey u.user_id) u o.ttl),
        [], ?_, ?_, ?_, ?_, ?_⟩
      · simp only [getUsers, forceOf, hE, hRC, hmiss, hFetch, h3, hcfg]
        simp
      · intro _
        rfl
      · intro f hf
        exact Option.noConfusion hf
      · rw [dirBatches_append, dirBatches_append, dirBatches_append,
          dirBatches_connect evs0 h0evs, dirBatches_reads, dirBatches_writes, h2bat]
        simp
      · show writeUsers st2.cache (fetchedOf D st ids) = _
        rw [h2cache]
        rfl
    | some f =>
      have hstill : (missingIds st ids).filter
          (fun id => !((fetchedOf D st ids).any (fun u => u.user_id == id)))
          = (missingIds st ids).filter (fun id => (D id).isNone) := by
        apply List.filter_congr
        intro id hid
        have hb : ((fetchedOf D st ids).any (fun u => u.user_id == id)) = (D id).isSome := by
          apply bool_eq_of_iff
          rw [any_uid_iff]
          unfold fetchedOf
          rw [filterMap_map_uid D hD (missingIds st ids)]
          simp [List.mem_filter, hid]
        rw [hb]
        cases D id <;> rfl
      obtain ⟨ms, hRM, hms⟩ := runMocks_ok f (hmock f hcfg)
        ((missingIds st ids).filter (fun id => (D id).isNone))
      have h5 : (if ms.isEmpty
            then ({ st2 with cache := writeUsers st2.cache (fetchedOf D st ids) },
                  ([] : List Ev))
            else setUsers o
              { st2 with cache := writeUsers st2.cache (fetchedOf D st ids) } ms)
          = ({ st2 with cache :=
                (writeUsers (writeUsers st2.cache (fetchedOf D st ids)) ms) },
             ms.map (fun u => Ev.cacheWrite (userKey u.user_id) u o.ttl)) := by
        by_cases hme : ms = []
        · rw [hme]
          simp [writeUsers]
        · have hne : ms.isEmpty = false := by
            cases hmm : ms with
            | nil => exact absurd hmm hme
            | cons a l => rfl
          rw [hne]
          simp only [Bool.false_eq_true, if_false]
          exact setUsers_spec o _ _ h2conn
      refine ⟨{ st2 with cache :=
            (writeUsers (writeUsers st2.cache (fetchedOf D st ids)) ms) },
        evs0 ++ ids.map (fun id => Ev.cacheRead (userKey id)) ++ evs2
          ++ (fetchedOf D st ids).map (fun u => Ev.cacheWrite (userKey u.user_id) u o.ttl)
          ++ ((missingIds st ids).filter (fun id => (D id).isNone)).map Ev.mockCall
          ++ ms.map (fun u => Ev.cacheWrite (userKey u.user_id) u o.ttl),
        ms, ?_, ?_, ?_, ?_, ?_⟩
      · simp only [getUsers, forceOf, hE, hRC, hmiss, hFetch, h3, hcfg, hstill, hRM, h5]
      · intro h
        exact Option.noConfusion h
      · intro f' hf'
        exact hms
      · have hmev : dirBatches
            (((missingIds st ids).filter (fun id => (D id).isNone)).map Ev.mockCall) = [] := by
          apply dirBatches_mocks
          intro e he
          simp only [List.mem_map] at he
          obtain ⟨id, _, rfl⟩ := he
          exact ⟨id, rfl⟩
        rw [dirBatches_append, dirBatches_append, dirBatches_append, dirBatches_append,
          dirBatches_append, dirBatches_connect evs0 h0evs, dirBatches_reads,
          dirBatches_writes, dirBatches_writes, hmev, h2bat]
        simp
      · show (writeUsers (writeUsers st2.cache (fetchedOf D st ids)) ms) = _
        rw [h2cache]

/- ### Counting helpers -/

theorem cnt_eq_count (id : String) (l : List User) :
    cnt id l = (l.map User.user_id).count id := by
  rw [cnt, List.count_eq_countP, List.countP_map, ← List.countP_eq_length_filter]
  rfl

theorem cnt_of_map_uid {l : List User} {ds : List String}
    (h : l.map User.user_id = ds) (id : String) : cnt id l = ds.count id := by
  rw [cnt_eq_count, h]

theorem count_filter_nodup (ids : List String) (hnd : ids.Nodup) (p : String → Bool)
    (id : String) :
    (ids.filter p).count id = if id ∈ ids ∧ p id = true then 1 else 0 := by
  by_cases h : id ∈ ids ∧ p id = true
  · rw [if_pos h]
    have hmem : id ∈ ids.filter p := List.mem_filter.mpr ⟨h.1, h.2⟩
    have h1 : 0 < (ids.filter p).count id := List.count_pos_iff.mpr hmem
    have h2 : (ids.filter p).count id ≤ 1 := List.nodup_iff_count_le_one.mp (hnd.filter p) id
    omega
  · rw [if_neg h]
    apply List.count_eq_zero_of_not_mem
    intro hmem
    have hm := List.mem_filter.mp hmem
    exact h ⟨hm.1, hm.2⟩

theorem count_filter_filter_nodup (ids : List String) (hnd : ids.Nodup)
    (p q : String → Bool) (id : String) :
    ((ids.filter p).filter q).count id
      = if id ∈ ids ∧ p id = true ∧ q id = true then 1 else 0 := by
  rw [count_filter_nodup (ids.filter p) (hnd.filter p) q id]
  by_cases h : id ∈ ids ∧ p id = true ∧ q id = true
  · rw [if_pos ⟨List.mem_filter.mpr ⟨h.1, h.2.1⟩, h.2.2⟩, if_pos h]
  · rw [if_neg, if_neg h]
    intro ⟨hmem, hq⟩
    have hm := List.mem_filter.mp hmem
    exact h ⟨hm.1, hm.2, hq⟩

/- ### Concrete fixtures for counterexamples and witnesses -/

def uA : User := ⟨"a", "Alice"⟩

def uB : User := ⟨"b", "Bob"⟩

/- A Redis store that holds exactly the record of user `"a"`. -/
def storeA : String → Option User := fun k => if k = "user:a" then some uA else none

/- A directory that knows exactly user `"b"`. -/
def DA : String → Option User := fun id => if id = "b" then some uB else none

/- A well-behaved external world answering every batch from directory `D`. -/
def testWorld (D : String → Option User) : World :=
  { decodeExp := fun _ => 0
    now := 0
    tokenExchange := fun _ => Except.ok "tok"
    dir := fun b => Except.ok (b.filterMap D)
    search := fun _ => Except.ok [] }

def testOpts : Options :=
  { domain := "d", client_id := "cid", client_secret := "sec", redis_url := "r"
    ttl := 900, create_mock_user_fn := none }

def mockOpts : Options :=
  { testOpts with create_mock_user_fn := some (fun id => Except.ok ⟨id, "mock"⟩) }

def stA : St := ⟨false, false, storeA, none⟩

theorem storeA_coherent : ∀ id u, storeA (userKey id) = some u → u.user_id = id := by
  intro id u h
  by_cases hk : userKey id = "user:a"
  · have hid : id = "a" := userKey_inj (hk.trans (by rfl))
    subst hid
    rw [storeA, if_pos hk] at h
    cases h
    rfl
  · rw [storeA, if_neg hk] at h
    cases h

theorem DA_coherent : ∀ id u, DA id = some u → u.user_id = id := by
  intro id u h
  by_cases hid : id = "b"
  · subst hid
    rw [DA, if_pos rfl] at h
    cases h
    rfl
  · rw [DA, if_neg hid] at h
    cases h

/-- Claim C1, counterexample: the claim quantifies over every *list* of
identifiers.  For the list `["a", "a"]` (identifier `"a"` present in the
cache), `getUsers` reads the cache once per occurrence and returns the
cached record twice — not "exactly one record per id in S present in the
cache". -/
theorem c1_counterexample :
    (getUsers (testWorld (fun _ => none)) testOpts ⟨false, false, storeA, none⟩
        ["a", "a"] none).val = Except.ok [uA, uA] ∧
    cnt "a" [uA, uA] ≠ 1 := by
  constructor
  · rfl
  · decide

/-- Claim C1 (amended: the identifier list must be duplicate-free; cache
entries and directory records are assumed to carry the identifier they are
keyed by, as every write of this library ensures): `getUsers(ctx, S)`
returns cache hits ++ remote-fetched users ++ mock users in that order,
with exactly one record per id of `S` that is present in the cache or
exists in the directory, exactly one mock record per id in neither (when a
mock generator is configured, none otherwise), and no id appearing in more
than one of the three groups. -/
theorem c1_amended (w : World) (o : Options) (st : St) (ids : List String)
    (D : String → Option User)
    (hnd : ids.Nodup)
    (hne : ∀ id ∈ ids, id ≠ "")
    (hcoh : ∀ id u, st.cache (userKey id) = some u → u.user_id = id)
    (hD : ∀ id u, D id = some u → u.user_id = id)
    (htok : ∀ r, ∃ t, w.tokenExchange r = Except.ok t)
    (hdir : ∀ b, w.dir b = Except.ok (b.filterMap D))
    (hmock : ∀ f, o.create_mock_user_fn = some f →
      ∀ id, ∃ u, f id = Except.ok u ∧ u.user_id = id) :
    ∃ st' evs mu,
      getUsers w o st ids none
        = ⟨st', evs, Except.ok (cachedOf st ids ++ fetchedOf D st ids ++ mu)⟩ ∧
      (∀ id ∈ ids, (st.cache (userKey id)).isSome = true →
        cnt id (cachedOf st ids) = 1 ∧ cnt id (fetchedOf D st ids) = 0 ∧ cnt id mu = 0) ∧
      (∀ id ∈ ids, st.cache (userKey id) = none → (D id).isSome = true →
        cnt id (cachedOf st ids) = 0 ∧ cnt id (fetchedOf D st ids) = 1 ∧ cnt id mu = 0) ∧
      (∀ id ∈ ids, st.cache (userKey id) = none → D id = none →
        cnt id (cachedOf st ids) = 0 ∧ cnt id (fetchedOf D st ids) = 0 ∧
        cnt id mu = (if o.create_mock_user_fn.isNone then 0 else 1)) := by
  obtain ⟨st', evs, mu, hrun, hmun, hmus, _, _⟩ :=
    getUsers_ok w o st ids D hcoh hD htok hdir hmock
  have hhit : ∀ id ∈ ids, (st.cache (userKey id)).isSome = true → cacheHit st id = true := by
    intro id hid hs
    rw [Option.isSome_iff_exists] at hs
    obtain ⟨u, hu⟩ := hs
    have huid := hcoh id u hu
    simp [cacheHit, hu, userExists, huid, hne id hid]
  have hmissB : ∀ id, st.cache (userKey id) = none → cacheHit st id = false := by
    intro id hc
    simp [cacheHit, hc, userExists]
  have hcntc : ∀ id, cnt id (cachedOf st ids)
      = (ids.filter (fun i => cacheHit st i)).count id :=
    fun id => cnt_of_map_uid (cached_map_uid st ids hcoh) id
  have hcntf : ∀ id, cnt id (fetchedOf D st ids)
      = ((ids.filter (fun i => !cacheHit st i)).filter (fun i => (D i).isSome)).count id :=
    fun id => cnt_of_map_uid (filterMap_map_uid D hD (missingIds st ids)) id
  have hcntm : ∀ f, o.create_mock_user_fn = some f → ∀ id, cnt id mu
      = ((ids.filter (fun i => !cacheHit st i)).filter (fun i => (D i).isNone)).count id :=
    fun f hf id => cnt_of_map_uid (hmus f hf) id
  refine ⟨st', evs, mu, hrun, ?_, ?_, ?_⟩
  · intro id hid hs
    have hH := hhit id hid hs
    refine ⟨?_, ?_, ?_⟩
    · rw [hcntc, count_filter_nodup ids hnd _ id, if_pos ⟨hid, hH⟩]
    · rw [hcntf, count_filter_filter_nodup ids hnd _ _ id, if_neg]
      intro ⟨_, hnh, _⟩
      rw [hH] at hnh
      cases hnh
    · cases hcfg : o.create_mock_user_fn with
      | none =>
        rw [hmun hcfg]
        rfl
      | some f =>
        rw [hcntm f hcfg, count_filter_filter_nodup ids hnd _ _ id, if_neg]
        intro ⟨_, hnh, _⟩
        rw [hH] at hnh
        cases hnh
  · intro id hid hc hs
    have hH := hmissB id hc
    refine ⟨?_, ?_, ?_⟩
    · rw [hcntc, count_filter_nodup ids hnd _ id, if_neg]
      intro ⟨_, hh⟩
      rw [hH] at hh
      cases hh
    · rw [hcntf, count_filter_filter_nodup ids hnd _ _ id,
        if_pos ⟨hid, by rw [hH]; rfl, hs⟩]
    · cases hcfg : o.create_mock_user_fn with
      | none =>
        rw [hmun hcfg]
        rfl
      | some f =>
        rw [hcntm f hcfg, count_filter_filter_nodup ids hnd _ _ id, if_neg]
        intro ⟨_, _, hn⟩
        rw [Option.isSome_iff_exists] at hs
        obtain ⟨u, hu⟩ := hs
        rw [hu] at hn
        cases hn
  · intro id hid hc hD0
    have hH := hmissB id hc
    refine ⟨?_, ?_, ?_⟩
    · rw [hcntc, count_filter_nodup ids hnd _ id, if_neg]
      intro ⟨_, hh⟩
      rw [hH] at hh
      cases hh
    · rw [hcntf, count_filter_filter_nodup ids hnd _ _ id, if_neg]
      intro ⟨_, _, hs⟩
      rw [hD0] at hs
      cases hs
    · cases hcfg : o.create_mock_user_fn with
      | none =>
        rw [hmun hcfg]
        rfl
      | some f =>
        show cnt id mu = 1
        rw [hcntm f hcfg, count_filter_filter_nodup ids hnd _ _ id,
          if_pos ⟨hid, by rw [hH]; rfl, by rw [hD0]; rfl⟩]

/-- Witness for the amended C1 at a concrete input: cache holds `"a"`, the
directory holds `"b"`, the mock generator covers `"c"`. -/
theorem c1_witness :
    ∃ st' evs mu,
      getUsers (testWorld DA) mockOpts stA ["a", "b", "c"] none
        = ⟨st', evs, Except.ok (cachedOf stA ["a", "b", "c"]
            ++ fetchedOf DA stA ["a", "b", "c"] ++ mu)⟩ ∧
      (∀ id ∈ ["a", "b", "c"], (stA.cache (userKey id)).isSome = true →
        cnt id (cachedOf stA ["a", "b", "c"]) = 1 ∧
        cnt id (fetchedOf DA stA ["a", "b", "c"]) = 0 ∧ cnt id mu = 0) ∧
      (∀ id ∈ ["a", "b", "c"], stA.cache (userKey id) = none → (DA id).isSome = true →
        cnt id (cachedOf stA ["a", "b", "c"]) = 0 ∧
        cnt id (fetchedOf DA stA ["a", "b", "c"]) = 1 ∧ cnt id mu = 0) ∧
      (∀ id ∈ ["a", "b", "c"], stA.cache (userKey id) = none → DA id = none →
        cnt id (cachedOf stA ["a", "b", "c"]) = 0 ∧
        cnt id (fetchedOf DA stA ["a", "b", "c"]) = 0 ∧
        cnt id mu = (if mockOpts.create_mock_user_fn.isNone then 0 else 1)) :=
  c1_amended (testWorld DA) mockOpts stA ["a", "b", "c"] DA
    (by decide) (by decide) storeA_coherent DA_coherent
    (fun _ => ⟨"tok", rfl⟩) (fun _ => rfl)
    (by
      intro f hf id
      cases hf
      exact ⟨⟨id, "mock"⟩, rfl, rfl⟩)

/- A weaker mock-loop success lemma (no coherence needed). -/
theorem runMocks_ok_weak (f : String → Except String User)
    (hf : ∀ id, ∃ u, f id = Except.ok u) :
    ∀ l, ∃ ms, runMocks f l = (l.map Ev.mockCall, Except.ok ms) := by
  intro l
  induction l with
  | nil => exact ⟨[], rfl⟩
  | cons id rest ih =>
    obtain ⟨u, hu⟩ := hf id
    obtain ⟨ms, hms⟩ := ih
    exact ⟨u :: ms, by simp [runMocks, hu, hms]⟩

def cfgA : UserCacheConfig :=
  { domain := "d", client_id := "cid", client_secret := "sec", redis_url := "r"
    ttl := some 900, create_mock_user_fn := none }

/-- Claim C2, counterexample: the factory wrapper (`async (ids) => await
getUsers(ctx, ids)`) never forwards an options argument, so a call carrying
`force_fetch: true` for the cached identifier `"a"` still reads the cache,
returns the cached record, and issues no remote directory request —
contradicting "performs no cache read" and "every id is requested from the
remote directory". -/
theorem c2_counterexample :
    (factoryGetUsers (testWorld DA) cfgA stA ["a"] (some ⟨some true⟩)).val
      = Except.ok [uA] ∧
    Ev.cacheRead "user:a" ∈ (factoryGetUsers (testWorld DA) cfgA stA ["a"]
        (some ⟨some true⟩)).evs ∧
    dirBatches (factoryGetUsers (testWorld DA) cfgA stA ["a"]
        (some ⟨some true⟩)).evs = [] := by
  refine ⟨rfl, ?_, rfl⟩
  decide

/-- Claim C2 (amended): the factory-returned `getUsers` takes only the id
list — any options argument is ignored and the internal `getUsers` is
always invoked without options, so callers cannot bypass the cache.  The
`force_fetch` option exists only on the internal `getUsers`: called with
`force_fetch = true` it performs no cache read and requests every id from
the remote directory, in batches of 10. -/
theorem c2_amended (w : World) (o : Options) (st : St) (ids : List String)
    (resp : List String → List User)
    (htok : ∀ r, ∃ t, w.tokenExchange r = Except.ok t)
    (hdir : ∀ b, w.dir b = Except.ok (resp b))
    (hmock : ∀ f, o.create_mock_user_fn = some f → ∀ id, ∃ u, f id = Except.ok u) :
    (∀ (i : UserCacheConfig) (st0 : St) (ids0 : List String)
        (gopts : Option GetUsersOptions),
      factoryGetUsers w i st0 ids0 gopts = getUsers w (mkOptions i) st0 ids0 none) ∧
    (∀ k, Ev.cacheRead k ∉ (getUsers w o st ids (some ⟨some true⟩)).evs) ∧
    dirBatches (getUsers w o st ids (some ⟨some true⟩)).evs = chunk ids 10 ∧
    (dirBatches (getUsers w o st ids (some ⟨some true⟩)).evs).flatten = ids := by
  refine ⟨fun i st0 ids0 gopts => rfl, ?_⟩
  cases hE : ensureConnected st with
  | mk st1 evs0 =>
    have h1conn : st1.isConnected = true := by
      have h := ensureConnected_isConnected st
      rw [hE] at h
      exact h
    have h0evs : ∀ e ∈ evs0, e = Ev.redisConnect := by
      have h := ensureConnected_evs st
      rw [hE] at h
      exact h
    have hforce : forceOf (some (⟨some true⟩ : GetUsersOptions)) = true := rfl
    have hRC : readCachedUsers st1 ids true = ([], []) := rfl
    have hmiss : ids.filter (fun id => !(([] : List User).any (fun u => u.user_id == id)))
        = ids := by
      simp
    obtain ⟨st2, evs2, hFetch, h2conn, h2evs, h2bat⟩ :
        ∃ st2 evs2,
          (if ids.isEmpty then (⟨st1, [], Except.ok []⟩ : Out (List User))
              else getAuth0Users w o st1 ids)
            = ⟨st2, evs2, Except.ok (((chunk ids 10).map resp).flatten)⟩ ∧
          st2.isConnected = true ∧ (∀ e ∈ evs2, tokenOrDir e) ∧
          dirBatches evs2 = chunk ids 10 := by
      by_cases hm : ids = []
      · subst hm
        exact ⟨st1, [], by simp [chunk_nil], h1conn, by simp, by simp [dirBatches, chunk_nil]⟩
      · have hne : ids.isEmpty = false := by
          cases hmm : ids with
          | nil => exact absurd hmm hm
          | cons a l => rfl
        rw [hne]
        obtain ⟨hval, hbat⟩ := fetchBatches_ok w o resp htok hdir (chunk ids 10) st1
        obtain ⟨_, hfic, _, hftd⟩ := fetchBatches_frame w o (chunk ids 10) st1
        refine ⟨_, _, ?_, hfic.trans h1conn, hftd, hbat⟩
        simp only [Bool.false_eq_true, if_false]
        exact Out.eta_val _ _ hval
    have h3 : (if (((chunk ids 10).map resp).flatten).isEmpty
          then (st2, ([] : List Ev))
          else setUsers o st2 (((chunk ids 10).map resp).flatten))
        = ({ st2 with cache := (writeUsers st2.cache (((chunk ids 10).map resp).flatten)) },
           (((chunk ids 10).map resp).flatten).map
             (fun u => Ev.cacheWrite (userKey u.user_id) u o.ttl)) := by
      by_cases hfe : ((chunk ids 10).map resp).flatten = []
      · rw [hfe]
        simp [writeUsers]
      · have hne : (((chunk ids 10).map resp).flatten).isEmpty = false := by
          cases hmm : ((chunk ids 10).map resp).flatten with
          | nil => exact absurd hmm hfe
          | cons a l => rfl
        rw [hne]
        simp only [Bool.false_eq_true, if_false]
        exact setUsers_spec o st2 _ h2conn
    cases hcfg : o.create_mock_user_fn with
    | none =>
      have hgu : getUsers w o st ids (some ⟨some true⟩)
          = ⟨{ st2 with cache := (writeUsers st2.cache (((chunk ids 10).map resp).flatten)) },
             evs0 ++ [] ++ evs2
               ++ (((chunk ids 10).map resp).flatten).map
                 (fun u => Ev.cacheWrite (userKey u.user_id) u o.ttl),
             Except.ok ([] ++ ((chunk ids 10).map resp).flatten)⟩ := by
        simp only [getUsers, hE, hforce, hRC, hmiss, hFetch, h3, hcfg]
      rw [hgu]
      refine ⟨?_, ?_, ?_⟩
      · intro k hk
        simp only [List.mem_append] at hk
        rcases hk with ((hk | hk) | hk) | hk
        · cases h0evs _ hk
        · cases hk
        · rcases h2evs _ hk with ⟨r, hr⟩ | ⟨d, q, b, hr⟩ <;> cases hr
        · simp only [List.mem_map] at hk
          obtain ⟨u, _, hu⟩ := hk
          cases hu
      · rw [dirBatches_append, dirBatches_append, dirBatches_append,
          dirBatches_connect evs0 h0evs, dirBatches_writes, h2bat]
        simp [dirBatches]
      · rw [dirBatches_append, dirBatches_append, dirBatches_append,
          dirBatches_connect evs0 h0evs, dirBatches_writes, h2bat]
        simp [dirBatches, chunk_flatten]
    | some f =>
      obtain ⟨ms, hRM⟩ := runMocks_ok_weak f (hmock f hcfg)
        (ids.filter (fun id => !((((chunk ids 10).map resp).flatten).any
          (fun u => u.user_id == id))))
      have h5 : (if ms.isEmpty
            then ({ st2 with cache :=
                    (writeUsers st2.cache (((chunk ids 10).map resp).flatten)) },
                  ([] : List Ev))
            else setUsers o
              { st2 with cache :=
                  (writeUsers st2.cache (((chunk ids 10).map resp).flatten)) } ms)
          = ({ st2 with cache :=
                (writeUsers (writeUsers st2.cache (((chunk ids 10).map resp).flatten)) ms) },
             ms.map (fun u => Ev.cacheWrite (userKey u.user_id) u o.ttl)) := by
        by_cases hme : ms = []
        · rw [hme]
          simp [writeUsers]
        · have hne : ms.isEmpty = false := by
            cases hmm : ms with
            | nil => exact absurd hmm hme
            | cons a l => rfl
          rw [hne]
          simp only [Bool.false_eq_true, if_false]
          exact setUsers_spec o _ _ h2conn
      have hgu : getUsers w o st ids (some ⟨some true⟩)
          = ⟨{ st2 with cache :=
                (writeUsers (writeUsers st2.cache (((chunk ids 10).map resp).flatten)) ms) },
             evs0 ++ [] ++ evs2
               ++ (((chunk ids 10).map resp).flatten).map
                 (fun u => Ev.cacheWrite (userKey u.user_id) u o.ttl)
               ++ (ids.filter (fun id => !((((chunk ids 10).map resp).flatten).any
                   (fun u => u.user_id == id)))).map Ev.mockCall
               ++ ms.map (fun u => Ev.cacheWrite (userKey u.user_id) u o.ttl),
             Except.ok ([] ++ ((chunk ids 10).map resp).flatten ++ ms)⟩ := by
        simp only [getUsers, hE, hforce, hRC, hmiss, hFetch, h3, hcfg, hRM, h5]
      rw [hgu]
      have hmev : ∀ e ∈ (ids.filter (fun id => !((((chunk ids 10).map resp).flatten).any
          (fun u => u.user_id == id)))).map Ev.mockCall, ∃ id, e = Ev.mockCall id := by
        intro e he
        simp only [List.mem_map] at he
        obtain ⟨id, _, rfl⟩ := he
        exact ⟨id, rfl⟩
      refine ⟨?_, ?_, ?_⟩
      · intro k hk
        simp only [List.mem_append] at hk
        rcases hk with ((((hk | hk) | hk) | hk) | hk) | hk
        · cases h0evs _ hk
        · cases hk
        · rcases h2evs _ hk with ⟨r, hr⟩ | ⟨d, q, b, hr⟩ <;> cases hr
        · simp only [List.mem_map] at hk
          obtain ⟨u, _, hu⟩ := hk
          cases hu
        · obtain ⟨id, hu⟩ := hmev _ hk
          cases hu
        · simp only [List.mem_map] at hk
          obtain ⟨u, _, hu⟩ := hk
          cases hu
      · rw [dirBatches_append, dirBatches_append, dirBatches_append, dirBatches_append,
          dirBatches_append, dirBatches_connect evs0 h0evs, dirBatches_writes,
          dirBatches_writes, dirBatches_mocks _ hmev, h2bat]
        simp [dirBatches]
      · rw [dirBatches_append, dirBatches_append, dirBatches_append, dirBatches_append,
          dirBatches_append, dirBatches_connect evs0 h0evs, dirBatches_writes,
          dirBatches_writes, dirBatches_mocks _ hmev, h2bat]
        simp [dirBatches, chunk_flatten]

/-- Witness for the amended C2 at a concrete input. -/
theorem c2_witness :
    (∀ (i : UserCacheConfig) (st0 : St) (ids0 : List String)
        (gopts : Option GetUsersOptions),
      factoryGetUsers (testWorld DA) i st0 ids0 gopts
        = getUsers (testWorld DA) (mkOptions i) st0 ids0 none) ∧
    (∀ k, Ev.cacheRead k ∉ (getUsers (testWorld DA) testOpts stA ["a", "b"]
        (some ⟨some true⟩)).evs) ∧
    dirBatches (getUsers (testWorld DA) testOpts stA ["a", "b"] (some ⟨some true⟩)).evs
      = chunk ["a", "b"] 10 ∧
    (dirBatches (getUsers (testWorld DA) testOpts stA ["a", "b"]
        (some ⟨some true⟩)).evs).flatten = ["a", "b"] :=
  c2_amended (testWorld DA) testOpts stA ["a", "b"] (fun b => b.filterMap DA)
    (fun _ => ⟨"tok", rfl⟩) (fun _ => rfl) (fun _ hf => Option.noConfusion hf)

/-- Claim C3: `chunk` partitions any id list into consecutive batches of
fixed size 10 (every batch non-empty and of size at most 10, every batch
except possibly the last of size exactly 10, concatenating back to the
input); `getAuth0Users` issues exactly one directory request per batch, in
batch order, and returns the concatenation of the batch results in batch
order; 25 identifiers produce exactly 3 requests of sizes 10, 10 and 5. -/
theorem c3_batching :
    (∀ ids : List String, (chunk ids 10).flatten = ids) ∧
    (∀ ids : List String, ∀ b ∈ chunk ids 10, b ≠ [] ∧ b.length ≤ 10) ∧
    (∀ (ids : List String) (i : Nat) (h : i + 1 < (chunk ids 10).length),
      ((chunk ids 10).get ⟨i, Nat.lt_of_succ_lt h⟩).length = 10) ∧
    (∀ (w : World) (o : Options) (st : St) (ids : List String)
        (resp : List String → List User),
      (∀ r, ∃ t, w.tokenExchange r = Except.ok t) →
      (∀ b, w.dir b = Except.ok (resp b)) →
      dirBatches (getAuth0Users w o st ids).evs = chunk ids 10 ∧
      (getAuth0Users w o st ids).val = Except.ok (((chunk ids 10).map resp).flatten)) ∧
    (∀ ids : List String, ids.length = 25 →
      (chunk ids 10).map List.length = [10, 10, 5]) := by
  refine ⟨chunk_flatten, ?_, ?_, ?_, ?_⟩
  · intro ids b hb
    exact chunk_mem_size ids 10 (by omega) b hb
  · intro ids i h
    obtain ⟨h', heq⟩ := chunk_full_size ids 10 (by omega) i h
    exact heq
  · intro w o st ids resp htok hdir
    obtain ⟨hval, hbat⟩ := fetchBatches_ok w o resp htok hdir (chunk ids 10) st
    exact ⟨hbat, hval⟩
  · intro ids h25
    have hr : List.range ((25 + 10 - 1) / 10) = [0, 1, 2] := by decide
    simp [chunk, h25, hr, List.length_take, List.length_drop]

def ids25 : List String := (List.range 25).map (fun n => toString n)

/-- Witness for C3 at concrete inputs: a 25-element id list and a concrete
two-id remote fetch. -/
theorem c3_witness :
    (chunk ids25 10).flatten = ids25 ∧
    (chunk ids25 10).map List.length = [10, 10, 5] ∧
    ((chunk ids25 10).get ⟨1, by decide⟩).length = 10 ∧
    dirBatches (getAuth0Users (testWorld DA) testOpts stA ["a", "b"]).evs
      = chunk ["a", "b"] 10 ∧
    (getAuth0Users (testWorld DA) testOpts stA ["a", "b"]).val
      = Except.ok (((chunk ["a", "b"] 10).map (fun b => b.filterMap DA)).flatten) :=
  ⟨c3_batching.1 ids25,
   c3_batching.2.2.2.2 ids25 (by decide),
   c3_batching.2.2.1 ids25 1 (by decide),
   (c3_batching.2.2.2.1 (testWorld DA) testOpts stA ["a", "b"] (fun b => b.filterMap DA)
     (fun _ => ⟨"tok", rfl⟩) (fun _ => rfl)).1,
   (c3_batching.2.2.2.1 (testWorld DA) testOpts stA ["a", "b"] (fun b => b.filterMap DA)
     (fun _ => ⟨"tok", rfl⟩) (fun _ => rfl)).2⟩

/-- Claim C5: `getToken` returns the stored token unchanged (no request, no
state change) whenever one is present and its decoded expiry lies more than
60 seconds in the future; otherwise it performs exactly one
client-credentials exchange — against `https://<domain>/oauth/token` with
audience `https://<domain>/api/v2/` — stores the new token in the context
and returns it. -/
theorem c5_getToken :
    (∀ (w : World) (t : String), isTokenValid w t = true ↔ w.now < w.decodeExp t - 60) ∧
    (∀ (w : World) (o : Options) (st : St) (t : String),
      st.access_token = some t → isTokenValid w t = true →
      getToken w o st = ⟨st, [], Except.ok t⟩) ∧
    (∀ (w : World) (o : Options) (st : St) (t' : String),
      (∀ t, st.access_token = some t → isTokenValid w t = false) →
      w.tokenExchange (mkTokenRequest o) = Except.ok t' →
      getToken w o st
        = ⟨{ st with access_token := some t' },
           [Ev.tokenReq (mkTokenRequest o)], Except.ok t'⟩ ∧
      (mkTokenRequest o).url = "https://" ++ o.domain ++ "/oauth/token" ∧
      (mkTokenRequest o).audience = "https://" ++ o.domain ++ "/api/v2/") := by
  refine ⟨?_, ?_, ?_⟩
  · intro w t
    simp [isTokenValid]
  · intro w o st t hst hv
    rw [getToken, hst]
    simp [hv]
  · intro w o st t' hinv hx
    refine ⟨?_, rfl, rfl⟩
    rw [getToken]
    cases hst : st.access_token with
    | none => simp [exchangeToken, hx]
    | some t => simp [hinv t hst, exchangeToken, hx]

/- A world whose tokens decode to a far-future expiry. -/
def testWorldValid : World := { testWorld DA with decodeExp := fun _ => 1000 }

/-- Witness for C5: a stored token with far-future expiry is returned
unchanged with no request; an invalid stored token triggers exactly one
exchange whose result is stored and returned. -/
theorem c5_witness :
    (isTokenValid (testWorld DA) "t0" = true ↔ (0 : Int) < 0 - 60) ∧
    getToken testWorldValid testOpts ⟨false, false, storeA, some "t0"⟩
      = ⟨⟨false, false, storeA, some "t0"⟩, [], Except.ok "t0"⟩ ∧
    getToken (testWorld DA) testOpts ⟨false, false, storeA, some "t0"⟩
      = ⟨⟨false, false, storeA, some "tok"⟩,
         [Ev.tokenReq (mkTokenRequest testOpts)], Except.ok "tok"⟩ :=
  ⟨c5_getToken.1 (testWorld DA) "t0",
   c5_getToken.2.1 testWorldValid testOpts ⟨false, false, storeA, some "t0"⟩ "t0" rfl rfl,
   ((c5_getToken.2.2 (testWorld DA) testOpts ⟨false, false, storeA, some "t0"⟩ "tok"
      (fun _ _ => rfl) rfl).1)⟩

/-- Claim C10: a caller-supplied ttl of 0 is treated the same as an omitted
ttl (JavaScript `opts.ttl || 60 * 15`): the effective TTL is 900 seconds
whenever `opts.ttl` is 0 or absent, and equals `opts.ttl` otherwise. -/
theorem c10_ttl (i : UserCacheConfig) :
    ((i.ttl = none ∨ i.ttl = some 0) → (mkOptions i).ttl = 900) ∧
    (∀ t, i.ttl = some t → t ≠ 0 → (mkOptions i).ttl = t) := by
  constructor
  · rintro (h | h) <;> simp [mkOptions, resolveTtl, h]
  · intro t h hne
    simp [mkOptions, resolveTtl, h, hne]

/-- Witness for C10 at concrete configurations: ttl 0, absent ttl, and a
non-zero ttl. -/
theorem c10_witness :
    (mkOptions { cfgA with ttl := some 0 }).ttl = 900 ∧
    (mkOptions { cfgA with ttl := none }).ttl = 900 ∧
    (mkOptions cfgA).ttl = 900 :=
  ⟨(c10_ttl _).1 (Or.inr rfl), (c10_ttl _).1 (Or.inl rfl),
   (c10_ttl cfgA).2 900 rfl (by decide)⟩

/- ### Connection-frame lemmas (for the disconnect/reuse claims) -/

/- A run that re-establishes no connection, leaves the client connection
state alone and keeps the context flag set. -/
def ConnFrame (st : St) (x : Out (List User)) : Prop :=
  Ev.redisConnect ∉ x.evs ∧ x.st.redisConn = st.redisConn ∧ x.st.isConnected = true

theorem setUsers_if_frame (o : Options) (st : St) (users : List User)
    (h : st.isConnected = true) :
    ((if users.isEmpty then (st, ([] : List Ev)) else setUsers o st users)).1.redisConn
      = st.redisConn ∧
    ((if users.isEmpty then (st, ([] : List Ev)) else setUsers o st users)).1.isConnected
      = true ∧
    ∀ e ∈ ((if users.isEmpty then (st, ([] : List Ev)) else setUsers o st users)).2,
      ∃ k u t, e = Ev.cacheWrite k u t := by
  cases hm : users.isEmpty with
  | true => simp [h]
  | false =>
    simp only [Bool.false_eq_true, if_false]
    rw [setUsers_spec o st users h]
    refine ⟨rfl, h, ?_⟩
    intro e he
    simp only [List.mem_map] at he
    obtain ⟨u, _, rfl⟩ := he
    exact ⟨_, _, _, rfl⟩

theorem getUsers_connected_frame (w : World) (o : Options) (st : St) (ids : List String)
    (gopts : Option GetUsersOptions) (h : st.isConnected = true) :
    ConnFrame st (getUsers w o st ids gopts) := by
  have hE := ensureConnected_of_connected h
  have hreads : ∀ (force : Bool) (e : Ev), e ∈ (readCachedUsers st ids force).2 →
      ∃ k, e = Ev.cacheRead k := by
    intro force e he
    cases force with
    | true => simp [readCachedUsers] at he
    | false =>
      simp only [readCachedUsers, Bool.false_eq_true, if_false, List.mem_map] at he
      obtain ⟨id, _, rfl⟩ := he
      exact ⟨_, rfl⟩
  have hff : ∀ (missing : List String),
      ((if missing.isEmpty then (⟨st, [], Except.ok []⟩ : Out (List User))
        else getAuth0Users w o st missing)).st.redisConn = st.redisConn ∧
      ((if missing.isEmpty then (⟨st, [], Except.ok []⟩ : Out (List User))
        else getAuth0Users w o st missing)).st.isConnected = true ∧
      ∀ e ∈ ((if missing.isEmpty then (⟨st, [], Except.ok []⟩ : Out (List User))
        else getAuth0Users w o st missing)).evs, tokenOrDir e := by
    intro missing
    cases hm : missing.isEmpty with
    | true => simp [h]
    | false =>
      simp only [Bool.false_eq_true, if_false]
      obtain ⟨_, hic, hrc, htd⟩ := fetchBatches_frame w o (chunk missing 10) st
      exact ⟨hrc, hic.trans h, htd⟩
  simp only [getUsers, hE]
  split
  next st2 evs2 e heq =>
    obtain ⟨hrc2, hic2, htd2⟩ := hff _
    rw [heq] at hrc2 hic2 htd2
    refine ⟨?_, hrc2, hic2⟩
    intro hk
    simp only [List.mem_append] at hk
    rcases hk with (hk | hk) | hk
    · simp at hk
    · obtain ⟨k, hkk⟩ := hreads _ _ hk
      cases hkk
    · rcases htd2 _ hk with ⟨r, hr⟩ | ⟨d, q, b, hr⟩ <;> cases hr
  next st2 evs2 fu heq =>
    obtain ⟨hrc2, hic2, htd2⟩ := hff _
    rw [heq] at hrc2 hic2 htd2
    obtain ⟨hs3rc, hs3ic, hs3w⟩ := setUsers_if_frame o st2 fu hic2
    split
    next hcfg =>
      refine ⟨?_, hs3rc.trans hrc2, hs3ic⟩
      intro hk
      simp only [List.mem_append] at hk
      rcases hk with ((hk | hk) | hk) | hk
      · simp at hk
      · obtain ⟨k, hkk⟩ := hreads _ _ hk
        cases hkk
      · rcases htd2 _ hk with ⟨r, hr⟩ | ⟨d, q, b, hr⟩ <;> cases hr
      · obtain ⟨k, u, t, hkk⟩ := hs3w _ hk
        cases hkk
    next f hcfg =>
      split
      next evs4 e4 hrm =>
        refine ⟨?_, hs3rc.trans hrc2, hs3ic⟩
        intro hk
        simp only [List.mem_append] at hk
        rcases hk with (((hk | hk) | hk) | hk) | hk
        · simp at hk
        · obtain ⟨k, hkk⟩ := hreads _ _ hk
          cases hkk
        · rcases htd2 _ hk with ⟨r, hr⟩ | ⟨d, q, b, hr⟩ <;> cases hr
        · obtain ⟨k, u, t, hkk⟩ := hs3w _ hk
          cases hkk
        · obtain ⟨id, hkk⟩ := runMocks_evs f _ _ (by rw [hrm]; exact hk)
          cases hkk
      next evs4 mu hrm =>
        obtain ⟨hs5rc, hs5ic, hs5w⟩ := setUsers_if_frame o _ mu hs3ic
        refine ⟨?_, (hs5rc.trans hs3rc).trans hrc2, hs5ic⟩
        intro hk
        simp only [List.mem_append] at hk
        rcases hk with ((((hk | hk) | hk) | hk) | hk) | hk
        · simp at hk
        · obtain ⟨k, hkk⟩ := hreads _ _ hk
          cases hkk
        · rcases htd2 _ hk with ⟨r, hr⟩ | ⟨d, q, b, hr⟩ <;> cases hr
        · obtain ⟨k, u, t, hkk⟩ := hs3w _ hk
          cases hkk
        · obtain ⟨id, hkk⟩ := runMocks_evs f _ _ (by rw [hrm]; exact hk)
          cases hkk
        · obtain ⟨k, u, t, hkk⟩ := hs5w _ hk
          cases hkk

theorem setUsers_connected_frame (o : Options) (st : St) (users : List User)
    (h : st.isConnected = true) :
    Ev.redisConnect ∉ (setUsers o st users).2 ∧
    (setUsers o st users).1.redisConn = st.redisConn ∧
    (setUsers o st users).1.isConnected = true := by
  rw [setUsers_spec o st users h]
  refine ⟨?_, rfl, h⟩
  intro hk
  simp only [List.mem_map] at hk
  obtain ⟨u, _, hu⟩ := hk
  cases hu

theorem searchUsers_connected_frame (w : World) (o : Options) (st : St) (q : String)
    (h : st.isConnected = true) :
    Ev.redisConnect ∉ (searchUsers w o st q).evs ∧
    (searchUsers w o st q).st.redisConn = st.redisConn ∧
    (searchUsers w o st q).st.isConnected = true := by
  obtain ⟨_, hic, hrc, htd⟩ := getToken_frame w o st
  cases hg : getToken w o st with
  | mk st1 evs1 v1 =>
    rw [hg] at hic hrc htd
    cases v1 with
    | error e =>
      simp only [searchUsers, hg]
      refine ⟨?_, hrc, hic.trans h⟩
      intro hk
      obtain ⟨r, hr⟩ := htd _ hk
      cases hr
    | ok t =>
      cases hw : w.search q with
      | error e =>
        simp only [searchUsers, hg, hw]
        refine ⟨?_, hrc, hic.trans h⟩
        intro hk
        simp only [List.mem_append] at hk
        rcases hk with hk | hk
        · obtain ⟨r, hr⟩ := htd _ hk
          cases hr
        · simp only [List.mem_singleton] at hk
          cases hk
      | ok users =>
        obtain ⟨hnc, hsrc, hsic⟩ := setUsers_connected_frame o st1 users (hic.trans h)
        simp only [searchUsers, hg, hw]
        refine ⟨?_, hsrc.trans hrc, hsic⟩
        intro hk
        simp only [List.mem_append] at hk
        rcases hk with (hk | hk) | hk
        · obtain ⟨r, hr⟩ := htd _ hk
          cases hr
        · simp only [List.mem_singleton] at hk
          cases hk
        · exact hnc hk

/- A context that has connected (and whose client is connected). -/
def stC : St := ⟨true, true, storeA, none⟩

/-- Claim C8, counterexample: `disconnect` never resets `ctx.isConnected`,
so calling it twice from a connected context issues the store disconnect
operation twice — two calls are not operation-equivalent to "at most one"
call, even though the second call is possible only because the flag is
stale. -/
theorem c8_counterexample :
    (disconnect stC).2 = [Ev.redisDisconnect] ∧
    (disconnect (disconnect stC).1).2 = [Ev.redisDisconnect] ∧
    (disconnect (disconnect stC).1).2 ≠ [] := by
  refine ⟨rfl, rfl, by decide⟩

/-- Claim C8 (amended): `disconnect` on a never-connected context is a
complete no-op (no operation reaches the store); repeated calls are
idempotent at the state level (the second call leaves the context exactly
as the first left it); but because the `isConnected` flag is never reset,
every call from a connected context issues one disconnect operation on the
underlying store, so n calls issue n operations rather than at most one. -/
theorem c8_amended :
    (∀ st : St, st.isConnected = false → disconnect st = (st, [])) ∧
    (∀ st : St, (disconnect (disconnect st).1).1 = (disconnect st).1) ∧
    (∀ st : St, st.isConnected = true → (disconnect st).2 = [Ev.redisDisconnect]) := by
  refine ⟨?_, ?_, ?_⟩
  · intro st h
    simp [disconnect, h]
  · intro st
    by_cases h : st.isConnected <;> simp [disconnect, h]
  · intro st h
    simp [disconnect, h]

/-- Witness for the amended C8 at concrete states. -/
theorem c8_witness :
    disconnect ⟨false, false, storeA, none⟩ = (⟨false, false, storeA, none⟩, []) ∧
    (disconnect (disconnect stC).1).1 = (disconnect stC).1 ∧
    (disconnect stC).2 = [Ev.redisDisconnect] :=
  ⟨c8_amended.1 _ rfl, c8_amended.2.1 stC, c8_amended.2.2 stC rfl⟩

/-- Claim C9: after `disconnect()` on a context that had connected, the
`isConnected` flag remains true, so every subsequent public operation
(`getUsers`, `setUsers`, `searchUsers`) skips re-establishing the
connection in `ensureConnected` (no connect operation ever occurs) and runs
with the client still disconnected: the cache object is not reusable after
`disconnect`. -/
theorem c9_not_reusable (st0 : St) (h0 : st0.isConnected = true) :
    (disconnect st0).1.isConnected = true ∧
    (disconnect st0).1.redisConn = false ∧
    (∀ (w : World) (o : Options) (ids : List String) (gopts : Option GetUsersOptions),
      Ev.redisConnect ∉ (getUsers w o (disconnect st0).1 ids gopts).evs ∧
      (getUsers w o (disconnect st0).1 ids gopts).st.redisConn = false ∧
      (getUsers w o (disconnect st0).1 ids gopts).st.isConnected = true) ∧
    (∀ (o : Options) (users : List User),
      Ev.redisConnect ∉ (setUsers o (disconnect st0).1 users).2 ∧
      (setUsers o (disconnect st0).1 users).1.redisConn = false ∧
      (setUsers o (disconnect st0).1 users).1.isConnected = true) ∧
    (∀ (w : World) (o : Options) (q : String),
      Ev.redisConnect ∉ (searchUsers w o (disconnect st0).1 q).evs ∧
      (searchUsers w o (disconnect st0).1 q).st.redisConn = false ∧
      (searchUsers w o (disconnect st0).1 q).st.isConnected = true) := by
  have hd : disconnect st0 = ({ st0 with redisConn := false }, [Ev.redisDisconnect]) := by
    simp [disconnect, h0]
  rw [hd]
  refine ⟨h0, rfl, ?_, ?_, ?_⟩
  · intro w o ids gopts
    exact getUsers_connected_frame w o _ ids gopts h0
  · intro o users
    exact setUsers_connected_frame o _ users h0
  · intro w o q
    exact searchUsers_connected_frame w o _ q h0

/-- Witness for C9 at a concrete connected context and concrete
operations. -/
theorem c9_witness :
    (disconnect stC).1.isConnected = true ∧
    (disconnect stC).1.redisConn = false ∧
    (Ev.redisConnect ∉ (getUsers (testWorld DA) testOpts (disconnect stC).1 ["a"] none).evs ∧
      (getUsers (testWorld DA) testOpts (disconnect stC).1 ["a"] none).st.redisConn = false ∧
      (getUsers (testWorld DA) testOpts (disconnect stC).1 ["a"] none).st.isConnected = true) ∧
    (Ev.redisConnect ∉ (searchUsers (testWorld DA) testOpts (disconnect stC).1 "q").evs) :=
  ⟨(c9_not_reusable stC rfl).1,
   (c9_not_reusable stC rfl).2.1,
   (c9_not_reusable stC rfl).2.2.1 (testWorld DA) testOpts ["a"] none,
   ((c9_not_reusable stC rfl).2.2.2.2 (testWorld DA) testOpts "q").1⟩

/-- Claim C7: `searchUsers(ctx, q)` issues a single authenticated search
request (query `email:/q/`), writes every record of the full remote result
set into the cache under its own identifier key — leaving pre-existing
cache entries whose key is not in the result set untouched — and returns
the remote result set unmodified, unfiltered and unsorted. -/
theorem c7_searchUsers (w : World) (o : Options) (st : St) (q : String)
    (users : List User)
    (htok : ∀ r, ∃ t, w.tokenExchange r = Except.ok t)
    (hs : w.search q = Except.ok users)
    (huniq : ∀ u ∈ users, ∀ v ∈ users, v.user_id = u.user_id → v = u) :
    (searchUsers w o st q).val = Except.ok users ∧
    ((searchUsers w o st q).evs.filter (fun e => match e with
        | Ev.searchReq _ _ => true
        | _ => false))
      = [Ev.searchReq o.domain ("email:/" ++ q ++ "/")] ∧
    (∀ u ∈ users, (searchUsers w o st q).st.cache (userKey u.user_id) = some u) ∧
    (∀ k, (∀ u ∈ users, k ≠ userKey u.user_id) →
      (searchUsers w o st q).st.cache k = st.cache k) := by
  obtain ⟨t, ht⟩ := getToken_ok w o st htok
  obtain ⟨hc, _, _, htd⟩ := getToken_frame w o st
  cases hg : getToken w o st with
  | mk st1 evs1 v1 =>
    rw [hg] at ht hc htd
    simp only at ht
    subst ht
    have hset : setUsers o st1 users
        = ({ (ensureConnected st1).1 with cache := writeUsers st1.cache users },
           (ensureConnected st1).2
             ++ users.map (fun u => Ev.cacheWrite (userKey u.user_id) u o.ttl)) := by
      simp [setUsers, ensureConnected_cache]
    have hrun : searchUsers w o st q
        = ⟨{ (ensureConnected st1).1 with cache := writeUsers st1.cache users },
           evs1 ++ [Ev.searchReq o.domain ("email:/" ++ q ++ "/")]
             ++ ((ensureConnected st1).2
               ++ users.map (fun u => Ev.cacheWrite (userKey u.user_id) u o.ttl)),
           Except.ok users⟩ := by
      simp only [searchUsers, hg, hs, hset]
    rw [hrun]
    refine ⟨rfl, ?_, ?_, ?_⟩
    · rw [List.filter_append, List.filter_append]
      have h1 : evs1.filter (fun e => match e with
          | Ev.searchReq _ _ => true
          | _ => false) = [] := by
        rw [List.filter_eq_nil_iff]
        intro e he
        obtain ⟨r, rfl⟩ := htd e he
        simp
      have h2 : ((ensureConnected st1).2
            ++ users.map (fun u => Ev.cacheWrite (userKey u.user_id) u o.ttl)).filter
          (fun e => match e with
            | Ev.searchReq _ _ => true
            | _ => false) = [] := by
        rw [List.filter_eq_nil_iff]
        intro e he
        rcases List.mem_append.mp he with h | h
        · rw [ensureConnected_evs st1 e h]
          simp
        · simp only [List.mem_map] at h
          obtain ⟨u, _, rfl⟩ := h
          simp
      rw [h1, h2]
      rfl
    · intro u hu
      show writeUsers st1.cache users (userKey u.user_id) = some u
      exact writeUsers_mem users st1.cache u hu (huniq u hu)
    · intro k hk
      show writeUsers st1.cache users k = st.cache k
      rw [writeUsers_frame users st1.cache k hk, hc]

def searchWorld : World := { testWorld DA with search := fun _ => Except.ok [uA, uB] }

/-- Witness for C7 at a concrete search returning two records. -/
theorem c7_witness :
    (searchUsers searchWorld testOpts stA "chris").val = Except.ok [uA, uB] ∧
    ((searchUsers searchWorld testOpts stA "chris").evs.filter (fun e => match e with
        | Ev.searchReq _ _ => true
        | _ => false))
      = [Ev.searchReq "d" "email:/chris/"] ∧
    (searchUsers searchWorld testOpts stA "chris").st.cache (userKey "b") = some uB ∧
    (searchUsers searchWorld testOpts stA "chris").st.cache "user:z" = stA.cache "user:z" := by
  obtain ⟨h1, h2, h3, h4⟩ := c7_searchUsers searchWorld testOpts stA "chris" [uA, uB]
    (fun _ => ⟨"tok", rfl⟩) rfl (by decide)
  exact ⟨h1, h2, h3 uB (by decide), h4 "user:z" (by decide)⟩

/- The `missing_ids` a `getUsers(ctx, ids, opts)` run computes (observable
abbreviation used to state the failure-path claims). -/
def runMissingIds (st : St) (ids : List String) (gopts : Option GetUsersOptions) :
    List String :=
  ids.filter (fun id =>
    !((readCachedUsers (ensureConnected st).1 ids (forceOf gopts)).1.any
      (fun u => u.user_id == id)))

/-- Claim C4: `getUsers` is all-or-nothing with respect to cache writes.
If the remote batched lookup fails, the call fails having written nothing
to the cache (results of earlier successful batches are discarded; the
cache contents are untouched; no cache-write operation occurs — in
particular cache hits read in step 2 are never written).  If the remote
fetch succeeds and some mock-generator invocation fails, the call fails
with the fetched users already written (as documented) but none of the
records synthesized in the mock loop written: the final cache is exactly
the fetched-write state, and every cache-write operation of the run wrote a
fetched record. -/
theorem c4_all_or_nothing :
    (∀ (w : World) (o : Options) (st : St) (ids : List String)
        (gopts : Option GetUsersOptions) (e : String),
      runMissingIds st ids gopts ≠ [] →
      (getAuth0Users w o (ensureConnected st).1 (runMissingIds st ids gopts)).val
        = Except.error e →
      (getUsers w o st ids gopts).val = Except.error e ∧
      (getUsers w o st ids gopts).st.cache = st.cache ∧
      ∀ k u t, Ev.cacheWrite k u t ∉ (getUsers w o st ids gopts).evs) ∧
    (∀ (w : World) (o : Options) (st : St) (ids : List String)
        (gopts : Option GetUsersOptions) (f : String → Except String User)
        (st2 : St) (evs2 : List Ev) (fu : List User) (e : String),
      o.create_mock_user_fn = some f →
      (if (runMissingIds st ids gopts).isEmpty
          then (⟨(ensureConnected st).1, [], Except.ok []⟩ : Out (List User))
          else getAuth0Users w o (ensureConnected st).1 (runMissingIds st ids gopts))
        = ⟨st2, evs2, Except.ok fu⟩ →
      (runMocks f ((runMissingIds st ids gopts).filter
          (fun id => !(fu.any (fun u => u.user_id == id))))).2 = Except.error e →
      (getUsers w o st ids gopts).val = Except.error e ∧
      (getUsers w o st ids gopts).st.cache = writeUsers st.cache fu ∧
      ∀ k u t, Ev.cacheWrite k u t ∈ (getUsers w o st ids gopts).evs → u ∈ fu) := by
  constructor
  · intro w o st ids gopts e hm hfail
    cases hE : ensureConnected st with
    | mk st1 evs0 =>
      have h1cache : st1.cache = st.cache := by
        have h := ensureConnected_cache st
        rw [hE] at h
        exact h
      have h0evs : ∀ ev ∈ evs0, ev = Ev.redisConnect := by
        have h := ensureConnected_evs st
        rw [hE] at h
        exact h
      simp only [runMissingIds, hE] at hm hfail
      have hne : (ids.filter (fun id =>
          !(((readCachedUsers st1 ids (forceOf gopts)).1).any
            (fun u => u.user_id == id)))).isEmpty = false := by
        cases hmm : ids.filter (fun id =>
            !(((readCachedUsers st1 ids (forceOf gopts)).1).any
              (fun u => u.user_id == id))) with
        | nil => exact absurd hmm hm
        | cons a l => rfl
      obtain ⟨hfc, _, _, hftd⟩ := fetchBatches_frame w o
        (chunk (ids.filter (fun id =>
          !(((readCachedUsers st1 ids (forceOf gopts)).1).any
            (fun u => u.user_id == id)))) 10) st1
      cases hF : getAuth0Users w o st1 (ids.filter (fun id =>
          !(((readCachedUsers st1 ids (forceOf gopts)).1).any
            (fun u => u.user_id == id)))) with
      | mk stF evsF vF =>
        have hF2 : fetchBatches w o
            (chunk (ids.filter (fun id =>
              !(((readCachedUsers st1 ids (forceOf gopts)).1).any
                (fun u => u.user_id == id)))) 10) st1 = ⟨stF, evsF, vF⟩ := hF
        rw [hF2] at hfc hftd
        rw [hF] at hfail
        simp only at hfail hfc hftd
        subst hfail
        have hgu : getUsers w o st ids gopts
            = ⟨stF, evs0 ++ (readCachedUsers st1 ids (forceOf gopts)).2 ++ evsF,
               Except.error e⟩ := by
          simp only [getUsers, hE, hne, Bool.false_eq_true, if_false, hF]
        rw [hgu]
        refine ⟨rfl, hfc.trans h1cache, ?_⟩
        intro k u t hk
        simp only [List.mem_append] at hk
        rcases hk with (hk | hk) | hk
        · cases h0evs _ hk
        · cases gopts with
          | none =>
            simp only [readCachedUsers, forceOf, Bool.false_eq_true, if_false,
              List.mem_map] at hk
            obtain ⟨id, _, hkk⟩ := hk
            cases hkk
          | some g =>
            cases hgf : g.force_fetch.getD false with
            | true =>
              simp only [readCachedUsers, forceOf, hgf] at hk
              simp at hk
            | false =>
              simp only [readCachedUsers, forceOf, hgf, Bool.false_eq_true, if_false,
                List.mem_map] at hk
              obtain ⟨id, _, hkk⟩ := hk
              cases hkk
        · rcases hftd _ hk with ⟨r, hr⟩ | ⟨d, q, b, hr⟩ <;> cases hr
  · intro w o st ids gopts f st2 evs2 fu e hcfg hFetch hmf
    cases hE : ensureConnected st with
    | mk st1 evs0 =>
      have h1cache : st1.cache = st.cache := by
        have h := ensureConnected_cache st
        rw [hE] at h
        exact h
      have h1conn : st1.isConnected = true := by
        have h := ensureConnected_isConnected st
        rw [hE] at h
        exact h
      have h0evs : ∀ ev ∈ evs0, ev = Ev.redisConnect := by
        have h := ensureConnected_evs st
        rw [hE] at h
        exact h
      simp only [runMissingIds, hE] at hFetch hmf
      have h2cache : st2.cache = st1.cache := by
        by_cases hm : (ids.filter (fun id =>
            !(((readCachedUsers st1 ids (forceOf gopts)).1).any
              (fun u => u.user_id == id)))).isEmpty
        · rw [if_pos hm] at hFetch
          cases hFetch
          rfl
        · rw [if_neg hm] at hFetch
          obtain ⟨hfc, _, _, _⟩ := fetchBatches_frame w o
            (chunk (ids.filter (fun id =>
              !(((readCachedUsers st1 ids (forceOf gopts)).1).any
                (fun u => u.user_id == id)))) 10) st1
          have hFetch2 : fetchBatches w o
              (chunk (ids.filter (fun id =>
                !(((readCachedUsers st1 ids (forceOf gopts)).1).any
                  (fun u => u.user_id == id)))) 10) st1
              = ⟨st2, evs2, Except.ok fu⟩ := hFetch
          rw [hFetch2] at hfc
          exact hfc
      have h2conn : st2.isConnected = true := by
        by_cases hm : (ids.filter (fun id =>
            !(((readCachedUsers st1 ids (forceOf gopts)).1).any
              (fun u => u.user_id == id)))).isEmpty
        · rw [if_pos hm] at hFetch
          cases hFetch
          exact h1conn
        · rw [if_neg hm] at hFetch
          obtain ⟨_, hfic, _, _⟩ := fetchBatches_frame w o
            (chunk (ids.filter (fun id =>
              !(((readCachedUsers st1 ids (forceOf gopts)).1).any
                (fun u => u.user_id == id)))) 10) st1
          have hFetch2 : fetchBatches w o
              (chunk (ids.filter (fun id =>
                !(((readCachedUsers st1 ids (forceOf gopts)).1).any
                  (fun u => u.user_id == id)))) 10) st1
              = ⟨st2, evs2, Except.ok fu⟩ := hFetch
          rw [hFetch2] at hfic
          exact hfic.trans h1conn
      have h2evs : ∀ ev ∈ evs2, tokenOrDir ev := by
        by_cases hm : (ids.filter (fun id =>
            !(((readCachedUsers st1 ids (forceOf gopts)).1).any
              (fun u => u.user_id == id)))).isEmpty
        · rw [if_pos hm] at hFetch
          cases hFetch
          intro ev hev
          cases hev
        · rw [if_neg hm] at hFetch
          obtain ⟨_, _, _, hftd⟩ := fetchBatches_frame w o
            (chunk (ids.filter (fun id =>
              !(((readCachedUsers st1 ids (forceOf gopts)).1).any
                (fun u => u.user_id == id)))) 10) st1
          have hFetch2 : fetchBatches w o
              (chunk (ids.filter (fun id =>
                !(((readCachedUsers st1 ids (forceOf gopts)).1).any
                  (fun u => u.user_id == id)))) 10) st1
              = ⟨st2, evs2, Except.ok fu⟩ := hFetch
          rw [hFetch2] at hftd
          exact hftd
      have h3 : (if fu.isEmpty then (st2, ([] : List Ev)) else setUsers o st2 fu)
          = ({ st2 with cache := (writeUsers st2.cache fu) },
             fu.map (fun u => Ev.cacheWrite (userKey u.user_id) u o.ttl)) := by
        by_cases hfe : fu = []
        · rw [hfe]
          simp [writeUsers]
        · have hnefu : fu.isEmpty = false := by
            cases hmm : fu with
            | nil => exact absurd hmm hfe
            | cons a l => rfl
          rw [hnefu]
          simp only [Bool.false_eq_true, if_false]
          exact setUsers_spec o st2 fu h2conn
      cases hRM : runMocks f ((ids.filter (fun id =>
          !(((readCachedUsers st1 ids (forceOf gopts)).1).any
            (fun u => u.user_id == id)))).filter
          (fun id => !(fu.any (fun u => u.user_id == id)))) with
      | mk evs4 v4 =>
        rw [hRM] at hmf
        simp only at hmf
        subst hmf
        have hm4 : ∀ ev ∈ evs4, ∃ id, ev = Ev.mockCall id := by
          have h := runMocks_evs f ((ids.filter (fun id =>
            !(((readCachedUsers st1 ids (forceOf gopts)).1).any
              (fun u => u.user_id == id)))).filter
            (fun id => !(fu.any (fun u => u.user_id == id))))
          rw [hRM] at h
          exact h
        have hgu : getUsers w o st ids gopts
            = ⟨{ st2 with cache := (writeUsers st2.cache fu) },
               evs0 ++ (readCachedUsers st1 ids (forceOf gopts)).2 ++ evs2
                 ++ fu.map (fun u => Ev.cacheWrite (userKey u.user_id) u o.ttl) ++ evs4,
               Except.error e⟩ := by
          simp only [getUsers, hE, hFetch, h3, hcfg, hRM]
        rw [hgu]
        refine ⟨rfl, by rw [← h1cache, ← h2cache], ?_⟩
        intro k u t hk
        simp only [List.mem_append] at hk
        rcases hk with (((hk | hk) | hk) | hk) | hk
        · cases h0evs _ hk
        · cases gopts with
          | none =>
            simp only [readCachedUsers, forceOf, Bool.false_eq_true, if_false,
              List.mem_map] at hk
            obtain ⟨id, _, hkk⟩ := hk
            cases hkk
          | some g =>
            cases hgf : g.force_fetch.getD false with
            | true =>
              simp only [readCachedUsers, forceOf, hgf] at hk
              simp at hk
            | false =>
              simp only [readCachedUsers, forceOf, hgf, Bool.false_eq_true, if_false,
                List.mem_map] at hk
              obtain ⟨id, _, hkk⟩ := hk
              cases hkk
        · rcases h2evs _ hk with ⟨r, hr⟩ | ⟨d, q, b, hr⟩ <;> cases hr
        · simp only [List.mem_map] at hk
          obtain ⟨u', hu', hkk⟩ := hk
          cases hkk
          exact hu'
        · obtain ⟨id, hkk⟩ := hm4 _ hk
          cases hkk

def failDirWorld : World := { testWorld DA with dir := fun _ => Except.error "boom" }

def failMockOpts : Options :=
  { testOpts with create_mock_user_fn := some (fun _ => Except.error "mockfail") }

/-- Witness for C4: a failing remote batch leaves the cache untouched; a
failing mock generation leaves exactly the fetched record written. -/
theorem c4_witness :
    ((getUsers failDirWorld testOpts stA ["b"] none).val = Except.error "boom" ∧
      (getUsers failDirWorld testOpts stA ["b"] none).st.cache = stA.cache) ∧
    ((getUsers (testWorld DA) failMockOpts stA ["b", "c"] none).val
        = Except.error "mockfail" ∧
      (getUsers (testWorld DA) failMockOpts stA ["b", "c"] none).st.cache
        = writeUsers stA.cache [uB]) := by
  constructor
  · have h := c4_all_or_nothing.1 failDirWorld testOpts stA ["b"] none "boom"
      (by decide) rfl
    exact ⟨h.1, h.2.1⟩
  · have h := c4_all_or_nothing.2 (testWorld DA) failMockOpts stA ["b", "c"] none
      (fun _ => Except.error "mockfail")
      ⟨true, true, storeA, some "tok"⟩
      [Ev.tokenReq (mkTokenRequest failMockOpts),
       Ev.dirReq "d" (batchQuery ["b", "c"]) ["b", "c"]]
      [uB] "mockfail" rfl rfl rfl
    exact ⟨h.1, h.2.1⟩

/-- Claim C6: in `getUsers`, `missing_ids` is exactly the subsequence of the
input ids whose identifier does not equal the `user_id` of any cache hit
(set difference preserving input order); the remote lookup is invoked if
and only if `missing_ids` is non-empty (a directory request occurs in the
trace exactly when it is non-empty); and the fetched users are written to
the Cache Store before the function returns them (the returned fetched
group is present in the final cache under its own keys). -/
theorem c6_missing_ids (w : World) (o : Options) (st : St) (ids : List String)
    (D : String → Option User)
    (hcoh : ∀ id u, st.cache (userKey id) = some u → u.user_id = id)
    (hD : ∀ id u, D id = some u → u.user_id = id)
    (htok : ∀ r, ∃ t, w.tokenExchange r = Except.ok t)
    (hdir : ∀ b, w.dir b = Except.ok (b.filterMap D))
    (hmock : ∀ f, o.create_mock_user_fn = some f →
      ∀ id, ∃ u, f id = Except.ok u ∧ u.user_id = id) :
    runMissingIds st ids none = missingIds st ids ∧
    ∃ st' evs mu,
      getUsers w o st ids none
        = ⟨st', evs, Except.ok (cachedOf st ids ++ fetchedOf D st ids ++ mu)⟩ ∧
      ((∃ d q b, Ev.dirReq d q b ∈ evs) ↔ missingIds st ids ≠ []) ∧
      (∀ u ∈ fetchedOf D st ids, st'.cache (userKey u.user_id) = some u) := by
  have hcu : (cachedOf st ids).map User.user_id = ids.filter (fun id => cacheHit st id) :=
    cached_map_uid st ids hcoh
  have hrc1 : (readCachedUsers (ensureConnected st).1 ids (forceOf none)).1
      = cachedOf st ids := by
    simp [readCachedUsers, forceOf, cachedOf, ensureConnected_cache st]
  have hmiss : ids.filter (fun id => !((cachedOf st ids).any (fun u => u.user_id == id)))
      = missingIds st ids := by
    apply List.filter_congr
    intro id hid
    have hb : ((cachedOf st ids).any (fun u => u.user_id == id)) = cacheHit st id := by
      apply bool_eq_of_iff
      rw [any_uid_iff, hcu]
      simp [List.mem_filter, hid]
    rw [hb]
  constructor
  · rw [runMissingIds, hrc1]
    exact hmiss
  · obtain ⟨st', evs, mu, hrun, hmun, hmus, hbat, hcache⟩ :=
      getUsers_ok w o st ids D hcoh hD htok hdir hmock
    refine ⟨st', evs, mu, hrun, ?_, ?_⟩
    · constructor
      · rintro ⟨d, q, b, hmem⟩ hnil
        rw [hnil, chunk_nil] at hbat
        exact (dirBatches_nil_iff evs).mp hbat d q b hmem
      · intro hnil
        by_contra hno
        push_neg at hno
        have hb0 : dirBatches evs = [] :=
          (dirBatches_nil_iff evs).mpr (fun d q b => hno d q b)
        rw [hbat] at hb0
        cases hmm : missingIds st ids with
        | nil => exact hnil hmm
        | cons a l =>
          rw [hmm, chunk_cons _ 10 (by omega) (by simp)] at hb0
          cases hb0
    · intro u hu
      rw [hcache]
      obtain ⟨i, hi, hDi⟩ := List.mem_filterMap.mp hu
      have hui : u.user_id = i := hD i u hDi
      have hDu : D u.user_id = some u := by rw [hui]; exact hDi
      have hinner : writeUsers st.cache (fetchedOf D st ids) (userKey u.user_id)
          = some u := by
        apply writeUsers_mem _ _ _ hu
        intro v hv hveq
        obtain ⟨j, _, hDj⟩ := List.mem_filterMap.mp hv
        have hvj : v.user_id = j := hD j v hDj
        have hDv : D v.user_id = some v := by rw [hvj]; exact hDj
        rw [hveq, hDu] at hDv
        cases hDv
        rfl
      rw [writeUsers_frame, hinner]
      intro m hm heq
      have hmm := userKey_inj heq
      cases hcfg : o.create_mock_user_fn with
      | none =>
        rw [hmun hcfg] at hm
        cases hm
      | some f =>
        have hmuid : m.user_id ∈ (missingIds st ids).filter (fun id => (D id).isNone) := by
          rw [← hmus f hcfg]
          exact List.mem_map_of_mem User.user_id hm
        have hnone : (D m.user_id).isNone = true := (List.mem_filter.mp hmuid).2
        rw [← hmm, hDu] at hnone
        cases hnone

/-- Witness for C6 at the concrete three-id input. -/
theorem c6_witness :
    runMissingIds stA ["a", "b", "c"] none = missingIds stA ["a", "b", "c"] ∧
    ∃ st' evs mu,
      getUsers (testWorld DA) mockOpts stA ["a", "b", "c"] none
        = ⟨st', evs, Except.ok (cachedOf stA ["a", "b", "c"]
            ++ fetchedOf DA stA ["a", "b", "c"] ++ mu)⟩ ∧
      ((∃ d q b, Ev.dirReq d q b ∈ evs) ↔ missingIds stA ["a", "b", "c"] ≠ []) ∧
      (∀ u ∈ fetchedOf DA stA ["a", "b", "c"],
        st'.cache (userKey u.user_id) = some u) :=
  c6_missing_ids (testWorld DA) mockOpts stA ["a", "b", "c"] DA
    storeA_coherent DA_coherent (fun _ => ⟨"tok", rfl⟩) (fun _ => rfl)
    (by
      intro f hf id
      cases hf
      exact ⟨⟨id, "mock"⟩, rfl, rfl⟩)
